import Mathlib

/-!
Verification of the tree-walking interpreter core (scanner, parser, AST,
evaluator) against its natural-language specification.

The Rust source is embedded shallowly:
* machine floats (`f32`/`f64`) are modelled by `ℚ` (exact rationals); the
  claims checked here never depend on rounding, NaN or signed zero,
* `Result<T, String>` becomes an explicit result type with an `err` case,
  `panic!`/`todo!`/`unwrap` failures become a distinct `crash` case,
* the mutable, reference-counted environment chain becomes a pure value that
  every evaluation step threads through and returns,
* the parser's mutable cursor becomes an explicit index into the token list;
  the mutually recursive descent is made total with a fuel parameter whose
  exhaustion is a distinct `fuelOut` case (never a behavior of the program).

`environment.rs` is declared by `main.rs` but absent from the sources; the
environment operations are modelled from the specification (see the doc
comments on `Environment`).
-/

namespace Interp

/-- Outcome of a fallible model computation. `ok`/`err` mirror Rust's
`Ok`/`Err(String)`; `crash` marks a Rust `panic!`, a failing `unwrap()` or a
`todo!()`; `fuelOut` marks fuel exhaustion of the fueled parser model and is
not a program behavior. -/
inductive Res (α : Type) where
  | ok (a : α)
  | err (msg : String)
  | crash (msg : String)
  | fuelOut
deriving DecidableEq, Repr

/-- Token kinds, from `scanner.rs` (`enum TokenType`). -/
inductive TokenType where
  | LeftParen | RightParen | LeftBrace | RightBrace
  | Comma | Dot | Minus | Plus | Percent | Semicolon | Slash | Start | Star
  | Bang | BangEqual | Equal | EqualEqual
  | Greater | GreaterEqual | Less | LessEqual
  | Identifier | String | Number
  | And | Class | Else | False | Fun | For | If | Nil | Or
  | Print | Return | Super | This | True | Var | While
  | Eof
deriving DecidableEq, Repr

/-- Scan-time literal payloads, from `scanner.rs` (`enum LiteralValue`).
`f64` is modelled by `ℚ`. -/
inductive ScanLiteral where
  | IntValue (i : Int)
  | FloatValue (q : ℚ)
  | StringValue (s : String)
  | IdentifierValue (s : String)
deriving DecidableEq, Repr

/-- A token, from `scanner.rs` (`struct Token`). -/
structure Token where
  token_type : TokenType
  lexeme : String
  literal : Option ScanLiteral
  line_number : Nat
deriving DecidableEq, Repr

/-- Runtime values, from `ast.rs` (`enum LiteralValue`); `f32` is modelled by
`ℚ`. -/
inductive LiteralValue where
  | Number (x : ℚ)
  | StringValue (s : String)
  | True
  | False
  | Nil
deriving DecidableEq, Repr

namespace LiteralValue

/-- Rust `f32` `Display` rendering, modelled exactly for integral values (the
only ones the verified statements evaluate it at); a non-integral rational is
rendered as numerator/denominator. -/
def numToString (q : ℚ) : String :=
  if q.den = 1 then
    (if q.num < 0 then "-" ++ toString q.num.natAbs else toString q.num.natAbs)
  else
    (if q.num < 0 then "-" ++ toString q.num.natAbs else toString q.num.natAbs)
      ++ "/" ++ toString q.den

/-- `LiteralValue::to_string`, from `ast.rs`. -/
def to_string : LiteralValue → String
  | Number x => numToString x
  | StringValue x => "\"" ++ x ++ "\""
  | True => "true"
  | False => "false"
  | Nil => "nill"

/-- `LiteralValue::to_type`, from `ast.rs`. -/
def to_type : LiteralValue → String
  | Number _ => "Number"
  | StringValue _ => "String"
  | True => "True"
  | False => "False"
  | Nil => "Nil"

/-- `LiteralValue::is_falsy`, from `ast.rs`. Rust tests `s.len() == 0` on the
byte length of the string, which is zero exactly when the string is empty. -/
def is_falsy : LiteralValue → LiteralValue
  | Number x => if x = 0 then True else False
  | StringValue s => if s.length = 0 then True else False
  | True => False
  | False => True
  | Nil => True

/-- `LiteralValue::is_truthy`, from `ast.rs`. -/
def is_truthy : LiteralValue → LiteralValue
  | Number x => if x = 0 then False else True
  | StringValue s => if s.length = 0 then False else True
  | True => True
  | False => False
  | Nil => False

/-- `LiteralValue::from_bool`, from `ast.rs`. -/
def from_bool (b : Bool) : LiteralValue :=
  if b then True else False

/-- `unwrap_as_f32`, from `ast.rs`; the `panic!` arm becomes `crash`. -/
def unwrap_as_f32 : Option ScanLiteral → Res ℚ
  | some (ScanLiteral.IntValue x) => .ok (x : ℚ)
  | some (ScanLiteral.FloatValue x) => .ok x
  | _ => .crash "Could not unwrap as f32"

/-- `unwrap_as_string`, from `ast.rs`; the `panic!` arm becomes `crash`. -/
def unwrap_as_string : Option ScanLiteral → Res String
  | some (ScanLiteral.StringValue s) => .ok s
  | some (ScanLiteral.IdentifierValue s) => .ok s
  | _ => .crash "Could not unwrap as string"

/-- `LiteralValue::from_token`, from `ast.rs`; the `panic!` arm becomes
`crash` (the Rust message interpolates the token's `Debug` form, which the
model does not reproduce). -/
def from_token (token : Token) : Res LiteralValue :=
  match token.token_type with
  | TokenType.Number =>
      match unwrap_as_f32 token.literal with
      | .ok x => .ok (Number x)
      | .err m => .err m
      | .crash m => .crash m
      | .fuelOut => .fuelOut
  | TokenType.String =>
      match unwrap_as_string token.literal with
      | .ok s => .ok (StringValue s)
      | .err m => .err m
      | .crash m => .crash m
      | .fuelOut => .fuelOut
  | TokenType.False => .ok False
  | TokenType.True => .ok True
  | TokenType.Nil => .ok Nil
  | _ => .crash "Could not create LiteralValue from token"

end LiteralValue

/-- C9: truthy- and falsy-conversion are total over all five value kinds and
complementary — for every value exactly one of `is_truthy v` and `is_falsy v`
is `True` (and both always return, never fail); a Number is falsy iff it is
zero, a Text iff it is empty, `True` is truthy, `False` and `Nil` are falsy. -/
theorem truthiness_total_and_complementary :
    ∀ v : LiteralValue,
      ((v.is_truthy = .True ∧ v.is_falsy = .False) ∨
       (v.is_truthy = .False ∧ v.is_falsy = .True)) ∧
      (∀ x : ℚ, (LiteralValue.Number x).is_falsy = .True ↔ x = 0) ∧
      (∀ s : String, (LiteralValue.StringValue s).is_falsy = .True ↔ s = "") ∧
      LiteralValue.True.is_truthy = .True ∧
      LiteralValue.False.is_falsy = .True ∧
      LiteralValue.Nil.is_falsy = .True := by
  intro v
  refine ⟨?_, ?_, ?_, rfl, rfl, rfl⟩
  · cases v with
    | Number x =>
        by_cases h : x = 0 <;>
          simp [LiteralValue.is_truthy, LiteralValue.is_falsy, h]
    | StringValue s =>
        by_cases h : s.length = 0 <;>
          simp [LiteralValue.is_truthy, LiteralValue.is_falsy, h]
    | True => left; exact ⟨rfl, rfl⟩
    | False => right; exact ⟨rfl, rfl⟩
    | Nil => right; exact ⟨rfl, rfl⟩
  · intro x
    by_cases h : x = 0 <;> simp [LiteralValue.is_falsy, h]
  · intro s
    cases s with
    | mk data =>
      cases data with
      | nil => exact ⟨fun _ => rfl, fun _ => rfl⟩
      | cons c cs =>
        constructor
        · intro h
          exact absurd h (by simp [LiteralValue.is_falsy, String.length])
        · intro h
          have hd : c :: cs = ([] : List Char) := congrArg String.data h
          exact absurd hd (by simp)

/-! ## Environment (scope chain)

`main.rs` declares `mod environment` and `ast.rs` evaluates against
`crate::environment::Environment`, but `environment.rs` itself is not among
the sources; the operations below are modelled from the specification §4.2. -/

/-- Modelled from the spec: the `Environment` type of the missing
`environment.rs` — "a chain of scopes, each holding a mapping from variable
name to runtime value, plus a reference to an enclosing (parent) scope, or no
parent for the root". The hash map becomes an association list; the optional
parent becomes the `root`/`child` split. -/
inductive Environment where
  | root (values : List (String × LiteralValue))
  | child (values : List (String × LiteralValue)) (parent : Environment)
deriving DecidableEq, Repr

namespace Environment

/-- Lookup in one scope's name-to-value mapping. -/
def lookupVal : List (String × LiteralValue) → String → Option LiteralValue
  | [], _ => none
  | (k, v) :: rest, name => if k = name then some v else lookupVal rest name

/-- Insert-or-overwrite in one scope's name-to-value mapping. -/
def insertVal : List (String × LiteralValue) → String → LiteralValue →
    List (String × LiteralValue)
  | [], name, v => [(name, v)]
  | (k, u) :: rest, name, v =>
      if k = name then (k, v) :: rest else (k, u) :: insertVal rest name v

/-- Modelled from the spec: `define(name, value)` of the missing
`environment.rs` — "inserts or overwrites the binding in the current scope
unconditionally". -/
def define : Environment → String → LiteralValue → Environment
  | root values, name, v => root (insertVal values name v)
  | child values parent, name, v => child (insertVal values name v) parent

/-- Modelled from the spec: `get(name)` of the missing `environment.rs` —
"walks outward through parent links; returns nothing if no scope in the chain
defines the name". -/
def get : Environment → String → Option LiteralValue
  | root values, name => lookupVal values name
  | child values parent, name =>
      match lookupVal values name with
      | some v => some v
      | none => parent.get name

/-- Modelled from the spec: `assign(name, value)` of the missing
`environment.rs` — "walks outward through parent links to find the nearest
scope that already defines the name and overwrites it there; if no scope
defines it, the operation reports failure". `some` is a successful
assignment returning the updated chain, `none` is the failure. -/
def assign : Environment → String → LiteralValue → Option Environment
  | root values, name, v =>
      match lookupVal values name with
      | some _ => some (root (insertVal values name v))
      | none => none
  | child values parent, name, v =>
      match lookupVal values name with
      | some _ => some (child (insertVal values name v) parent)
      | none =>
          match parent.assign name v with
          | some parent' => some (child values parent')
          | none => none

end Environment

/-! ## Expressions and their evaluation (`ast.rs`) -/

/-- Expression nodes, from `ast.rs` (`enum Expr`). The Rust source spells the
`Call` callee field `calee`. -/
inductive Expr where
  | Assign (name : Token) (value : Expr)
  | Binary (left : Expr) (operator : Token) (right : Expr)
  | Grouping (expression : Expr)
  | Literal (value : LiteralValue)
  | Unary (operator : Token) (right : Expr)
  | Variable (name : Token)
  | Logical (left : Expr) (operator : Token) (right : Expr)
  | Call (calee : Expr) (paren : Token) (arguments : List Expr)
deriving Repr

/-- Rust `Debug` rendering of a `TokenType` (its variant name), as produced
by the `{:?}` format specifier in the evaluator's error messages. -/
def tokenTypeDebug : TokenType → String
  | .LeftParen => "LeftParen" | .RightParen => "RightParen"
  | .LeftBrace => "LeftBrace" | .RightBrace => "RightBrace"
  | .Comma => "Comma" | .Dot => "Dot" | .Minus => "Minus" | .Plus => "Plus"
  | .Percent => "Percent" | .Semicolon => "Semicolon" | .Slash => "Slash"
  | .Start => "Start" | .Star => "Star"
  | .Bang => "Bang" | .BangEqual => "BangEqual" | .Equal => "Equal"
  | .EqualEqual => "EqualEqual"
  | .Greater => "Greater" | .GreaterEqual => "GreaterEqual"
  | .Less => "Less" | .LessEqual => "LessEqual"
  | .Identifier => "Identifier" | .String => "String" | .Number => "Number"
  | .And => "And" | .Class => "Class" | .Else => "Else" | .False => "False"
  | .Fun => "Fun" | .For => "For" | .If => "If" | .Nil => "Nil" | .Or => "Or"
  | .Print => "Print" | .Return => "Return" | .Super => "Super"
  | .This => "This" | .True => "True" | .Var => "Var" | .While => "While"
  | .Eof => "Eof"

/-- Rust `Debug` rendering of a runtime value, as interpolated by the
evaluator's catch-all error message (numeric payload rendering is
approximated; no verified statement evaluates it). -/
def LiteralValue.debugStr : LiteralValue → String
  | .Number x => "Number(" ++ LiteralValue.numToString x ++ ")"
  | .StringValue s => "StringValue(\"" ++ s ++ "\")"
  | .True => "True"
  | .False => "False"
  | .Nil => "Nil"

/-- Rust `%` on floats (`x % y` is the remainder with the sign of `x`,
`x - y * trunc(x / y)`), transcribed to exact rationals. -/
def ratFmod (x y : ℚ) : ℚ :=
  x - y * ((x / y).num / (x / y).den : Int)

/-- `Expr::evaluate`, from `ast.rs`. The shared, mutable environment becomes
an explicit value: each evaluation returns the (possibly mutated) chain, and
sequential sub-evaluations thread it left to right, which is exactly the
visibility the shared `Rc<RefCell<_>>` gives the single-threaded Rust code.
The `todo!()` on `Call` becomes `crash`. -/
def Expr.evaluate : Expr → Environment → Res (LiteralValue × Environment)
  | .Assign name value, environment =>
      match value.evaluate environment with
      | .ok (new_value, env₁) =>
          match env₁.assign name.lexeme new_value with
          | some env₂ => .ok (new_value, env₂)
          | none =>
              .err ("Variable " ++ name.lexeme ++ " has not been declared.")
      | .err m => .err m
      | .crash m => .crash m
      | .fuelOut => .fuelOut
  | .Variable name, environment =>
      match environment.get name.lexeme with
      | some value => .ok (value, environment)
      | none =>
          .err ("Variable '" ++ name.lexeme ++ "' has not been declared")
  | .Literal value, environment => .ok (value, environment)
  | .Grouping expression, environment => expression.evaluate environment
  | .Unary operator right, environment =>
      match right.evaluate environment with
      | .ok (r, env₁) =>
          match r, operator.token_type with
          | LiteralValue.Number x, TokenType.Minus =>
              .ok (LiteralValue.Number (-x), env₁)
          | _, TokenType.Minus =>
              .err ("Minus not implemented for " ++ r.to_type)
          | any, TokenType.Bang => .ok (any.is_falsy, env₁)
          | _, token_type =>
              .err (tokenTypeDebug token_type ++ " is not a valid unary operator")
      | .err m => .err m
      | .crash m => .crash m
      | .fuelOut => .fuelOut
  | .Binary left operator right, environment =>
      match left.evaluate environment with
      | .ok (l, env₁) =>
          match right.evaluate env₁ with
          | .ok (r, env₂) =>
              match l, operator.token_type, r with
              | .Number x, .Plus, .Number y => .ok (.Number (x + y), env₂)
              | .Number x, .Minus, .Number y => .ok (.Number (x - y), env₂)
              | .Number x, .Star, .Number y => .ok (.Number (x * y), env₂)
              | .Number x, .Slash, .Number y => .ok (.Number (x / y), env₂)
              | .Number x, .Percent, .Number y =>
                  .ok (.Number (ratFmod x y), env₂)
              | .Number x, .Less, .Number y =>
                  .ok (.from_bool (decide (x < y)), env₂)
              | .Number x, .LessEqual, .Number y =>
                  .ok (.from_bool (decide (x ≤ y)), env₂)
              | .Number x, .Greater, .Number y =>
                  .ok (.from_bool (decide (x > y)), env₂)
              | .Number x, .GreaterEqual, .Number y =>
                  .ok (.from_bool (decide (x ≥ y)), env₂)
              | .StringValue _, op, .Number _ =>
                  .err (tokenTypeDebug op ++ " is not defined for string and numbers")
              | .Number _, op, .StringValue _ =>
                  .err (tokenTypeDebug op ++ " is not defined for string and numbers")
              | .StringValue s₁, .Plus, .StringValue s₂ =>
                  .ok (.StringValue (s₁ ++ s₂), env₂)
              | x, .BangEqual, y => .ok (.from_bool (decide (x ≠ y)), env₂)
              | x, .EqualEqual, y => .ok (.from_bool (decide (x = y)), env₂)
              | .StringValue s₁, .Greater, .StringValue s₂ =>
                  .ok (.from_bool (decide (s₁ > s₂)), env₂)
              | .StringValue s₁, .GreaterEqual, .StringValue s₂ =>
                  .ok (.from_bool (decide (s₁ ≥ s₂)), env₂)
              | .StringValue s₁, .Less, .StringValue s₂ =>
                  .ok (.from_bool (decide (s₁ < s₂)), env₂)
              | .StringValue s₁, .LessEqual, .StringValue s₂ =>
                  .ok (.from_bool (decide (s₁ ≤ s₂)), env₂)
              | x, token_type, y =>
                  .err (tokenTypeDebug token_type ++ " is not implemented for operands "
                    ++ x.debugStr ++ " and " ++ y.debugStr)
          | .err m => .err m
          | .crash m => .crash m
          | .fuelOut => .fuelOut
      | .err m => .err m
      | .crash m => .crash m
      | .fuelOut => .fuelOut
  | .Logical left operator right, environment =>
      match operator.token_type with
      | TokenType.Or =>
          match left.evaluate environment with
          | .ok (lhs_value, env₁) =>
              if lhs_value.is_truthy = LiteralValue.True then
                .ok (lhs_value, env₁)
              else
                right.evaluate env₁
          | .err m => .err m
          | .crash m => .crash m
          | .fuelOut => .fuelOut
      | TokenType.And =>
          match left.evaluate environment with
          | .ok (lhs_value, env₁) =>
              if lhs_value.is_truthy = LiteralValue.False then
                .ok (lhs_value.is_truthy, env₁)
              else
                right.evaluate env₁
          | .err m => .err m
          | .crash m => .crash m
          | .fuelOut => .fuelOut
      | token_type =>
          .err ("Invalid token in logical expression: " ++ tokenTypeDebug token_type)
  | .Call _ _ _, _ => .crash "not yet implemented"

/-! ## Scanner (`scanner.rs`)

The Rust scanner holds the source as a `String` and a cursor `current`.
Crucially, `is_at_end` compares the cursor against `source.len()` — the
UTF-8 **byte** length — while `advance`/`peek`/`char_match` read
`source.chars().nth(current)` — the `current`-th **character**.  The model
keeps the source as its character list together with its byte length, and
the cursor as one number used both ways, exactly as the code does; a failing
`unwrap()` on a missing character becomes `crash`.  Byte-index slicing for
lexemes is modelled by character slicing, which coincides for ASCII input
(the non-ASCII cases the verified statements touch crash before slicing).
Loops are fueled; fuel is initialized so that it provably never runs out. -/

/-- `source.len()`: the UTF-8 byte length of the source. -/
def byteLen (src : List Char) : Nat := (src.map Char.utf8Size).sum

/-- `is_digit`, from `scanner.rs`: compares `ch as u8` (truncating cast)
against the ASCII digit codes. -/
def isDigitCh (c : Char) : Bool :=
  48 ≤ c.toNat % 256 && c.toNat % 256 ≤ 57

/-- `is_alpha`, from `scanner.rs`: compares `ch as u8` (truncating cast)
against the ASCII letter codes, or the character is an underscore. -/
def isAlphaCh (c : Char) : Bool :=
  (97 ≤ c.toNat % 256 && c.toNat % 256 ≤ 122) ||
  (65 ≤ c.toNat % 256 && c.toNat % 256 ≤ 90) || c = '_'

/-- `is_alpha_numeric`, from `scanner.rs`. -/
def isAlphaNumericCh (c : Char) : Bool := isAlphaCh c || isDigitCh c

/-- `get_keywords_hashmap`, from `scanner.rs`. -/
def keywordType (s : String) : Option TokenType :=
  if s = "and" then some .And
  else if s = "class" then some .Class
  else if s = "else" then some .Else
  else if s = "false" then some .False
  else if s = "for" then some .For
  else if s = "fun" then some .Fun
  else if s = "if" then some .If
  else if s = "nil" then some .Nil
  else if s = "or" then some .Or
  else if s = "print" then some .Print
  else if s = "return" then some .Return
  else if s = "super" then some .Super
  else if s = "this" then some .This
  else if s = "true" then some .True
  else if s = "var" then some .Var
  else if s = "while" then some .While
  else none

/-- `&self.source[a..b]` as a character slice (coincides with the byte slice
on ASCII input). -/
def sliceChars (src : List Char) (a b : Nat) : List Char :=
  (src.drop a).take (b - a)

/-- The slice as a `String`. -/
def sliceStr (src : List Char) (a b : Nat) : String :=
  String.mk (sliceChars src a b)

/-- `Scanner::advance`: `chars().nth(current).unwrap()` then `current += 1`;
the `unwrap` of a missing character becomes `crash`. -/
def advanceCh (src : List Char) (cur : Nat) : Res (Char × Nat) :=
  match src.get? cur with
  | some c => .ok (c, cur + 1)
  | none => .crash "char index out of range"

/-- `Scanner::peek`: `'\0'` at end of input, else
`chars().nth(current).unwrap()`. -/
def peekCh (src : List Char) (bl cur : Nat) : Res Char :=
  if bl ≤ cur then .ok '\x00'
  else
    match src.get? cur with
    | some c => .ok c
    | none => .crash "char index out of range"

/-- `Scanner::peek_next`. -/
def peekNextCh (src : List Char) (bl cur : Nat) : Res Char :=
  if bl ≤ cur + 1 then .ok '\x00'
  else
    match src.get? (cur + 1) with
    | some c => .ok c
    | none => .crash "char index out of range"

/-- `Scanner::char_match`. -/
def charMatch (src : List Char) (bl cur : Nat) (ch : Char) :
    Res (Bool × Nat) :=
  if bl ≤ cur then .ok (false, cur)
  else
    match src.get? cur with
    | some c => if c ≠ ch then .ok (false, cur) else .ok (true, cur + 1)
    | none => .crash "char index out of range"

/-- The `while` loop of `Scanner::string`: advance (bumping the line count at
newlines) until the closing quote or end of input. Returns the cursor and
line at loop exit. -/
def stringLoop (src : List Char) (bl : Nat) :
    Nat → Nat → Nat → Res (Nat × Nat)
  | 0, _, _ => .fuelOut
  | fuel + 1, cur, line =>
      if bl ≤ cur then .ok (cur, line)
      else
        match src.get? cur with
        | none => .crash "char index out of range"
        | some c =>
            if c = '"' then .ok (cur, line)
            else stringLoop src bl fuel (cur + 1)
              (if c = '\n' then line + 1 else line)

/-- `Scanner::string`, from `scanner.rs`: the body after the opening quote
has been consumed (`start` is the quote's position, `cur` the position after
it). Returns an optional lexical error, the new cursor and line, and the
produced token if any. -/
def stringFn (src : List Char) (bl start cur line : Nat) :
    Res (Option String × Nat × Nat × List Token) :=
  match stringLoop src bl (bl - cur + 1) cur line with
  | .ok (cur₁, line₁) =>
      if bl ≤ cur₁ then .ok (some "Unterminated string", cur₁, line₁, [])
      else
        match advanceCh src cur₁ with
        | .ok (_, cur₂) =>
            let value := sliceChars src (start + 1) (cur₂ - 1)
            .ok (none, cur₂, line₁,
              [⟨TokenType.String, sliceStr src start cur₂,
                some (.StringValue (String.mk value)), line₁⟩])
        | .err m => .err m
        | .crash m => .crash m
        | .fuelOut => .fuelOut
  | .err m => .err m
  | .crash m => .crash m
  | .fuelOut => .fuelOut

/-- A `while`-loop advancing over characters satisfying `p` (the digit and
identifier loops of `Scanner::number` / `Scanner::identifier`). -/
def spanLoop (src : List Char) (bl : Nat) (p : Char → Bool) :
    Nat → Nat → Res Nat
  | 0, _ => .fuelOut
  | fuel + 1, cur =>
      if bl ≤ cur then .ok cur
      else
        match src.get? cur with
        | none => .crash "char index out of range"
        | some c => if p c then spanLoop src bl p fuel (cur + 1) else .ok cur

/-- The value of a digit string (exact for ASCII digits, the only characters
the scanner's number path accepts on ASCII input). -/
def digitsVal (l : List Char) : Nat :=
  l.foldl (fun acc c => acc * 10 + (c.toNat - 48)) 0

/-- `substring.parse::<f64>()` modelled on the digit-and-dot shapes the
scanner produces, exactly for ASCII digit strings. -/
def parseF64 (l : List Char) : Option ℚ :=
  match l.splitOn '.' with
  | [ip] => if ip ≠ [] && ip.all isDigitCh then some (digitsVal ip) else none
  | [ip, fp] =>
      if ip ≠ [] && ip.all isDigitCh && fp ≠ [] && fp.all isDigitCh then
        some ((digitsVal ip : ℚ) + (digitsVal fp : ℚ) / ((10 : ℚ) ^ fp.length))
      else none
  | _ => none

/-- `Scanner::number`, from `scanner.rs`: the body after the first digit has
been consumed. -/
def numberFn (src : List Char) (bl start cur line : Nat) :
    Res (Option String × Nat × Nat × List Token) :=
  let finish (cur₂ : Nat) : Res (Option String × Nat × Nat × List Token) :=
    let sub := sliceChars src start cur₂
    match parseF64 sub with
    | some q =>
        .ok (none, cur₂, line,
          [⟨TokenType.Number, sliceStr src start cur₂,
            some (.FloatValue q), line⟩])
    | none => .ok (some ("Could not parse: " ++ String.mk sub), cur₂, line, [])
  match spanLoop src bl isDigitCh (bl - cur + 1) cur with
  | .ok cur₁ =>
      match peekCh src bl cur₁ with
      | .ok c =>
          if c = '.' then
            match peekNextCh src bl cur₁ with
            | .ok c' =>
                if isDigitCh c' then
                  match spanLoop src bl isDigitCh (bl - (cur₁ + 1) + 1)
                      (cur₁ + 1) with
                  | .ok cur₂ => finish cur₂
                  | .err m => .err m
                  | .crash m => .crash m
                  | .fuelOut => .fuelOut
                else finish cur₁
            | .err m => .err m
            | .crash m => .crash m
            | .fuelOut => .fuelOut
          else finish cur₁
      | .err m => .err m
      | .crash m => .crash m
      | .fuelOut => .fuelOut
  | .err m => .err m
  | .crash m => .crash m
  | .fuelOut => .fuelOut

/-- `Scanner::identifier`, from `scanner.rs`: the body after the first
alphabetic character has been consumed. -/
def identifierFn (src : List Char) (bl start cur line : Nat) :
    Res (Option String × Nat × Nat × List Token) :=
  match spanLoop src bl isAlphaNumericCh (bl - cur + 1) cur with
  | .ok cur₁ =>
      let sub := sliceStr src start cur₁
      match keywordType sub with
      | some t => .ok (none, cur₁, line, [⟨t, sub, none, line⟩])
      | none =>
          .ok (none, cur₁, line, [⟨TokenType.Identifier, sub, none, line⟩])
  | .err m => .err m
  | .crash m => .crash m
  | .fuelOut => .fuelOut

/-- The `//`-comment loop of `Scanner::scan_token`: advance until a newline
or end of input. -/
def commentLoop (src : List Char) (bl : Nat) : Nat → Nat → Res Nat
  | 0, _ => .fuelOut
  | fuel + 1, cur =>
      if bl ≤ cur then .ok cur
      else
        match src.get? cur with
        | none => .crash "char index out of range"
        | some c => if c = '\n' then .ok cur else commentLoop src bl fuel (cur + 1)

/-- A token for a simple operator lexeme sliced from the source. -/
def mkTok (src : List Char) (tt : TokenType) (start cur line : Nat) : Token :=
  ⟨tt, sliceStr src start cur, none, line⟩

/-- `Scanner::scan_token`, from `scanner.rs` (`start` equals the cursor at
entry, as set by the `scan_tokens` loop). Returns an optional lexical error,
the new cursor and line, and the tokens produced by this step. -/
def scanToken (src : List Char) (bl cur line : Nat) :
    Res (Option String × Nat × Nat × List Token) :=
  match advanceCh src cur with
  | .ok (c, cur₁) =>
      match c with
      | '(' => .ok (none, cur₁, line, [mkTok src .LeftParen cur cur₁ line])
      | ')' => .ok (none, cur₁, line, [mkTok src .RightParen cur cur₁ line])
      | '{' => .ok (none, cur₁, line, [mkTok src .LeftBrace cur cur₁ line])
      | '}' => .ok (none, cur₁, line, [mkTok src .RightBrace cur cur₁ line])
      | ',' => .ok (none, cur₁, line, [mkTok src .Comma cur cur₁ line])
      | '.' => .ok (none, cur₁, line, [mkTok src .Dot cur cur₁ line])
      | '-' => .ok (none, cur₁, line, [mkTok src .Minus cur cur₁ line])
      | '+' => .ok (none, cur₁, line, [mkTok src .Plus cur cur₁ line])
      | '%' => .ok (none, cur₁, line, [mkTok src .Percent cur cur₁ line])
      | ';' => .ok (none, cur₁, line, [mkTok src .Semicolon cur cur₁ line])
      | '*' => .ok (none, cur₁, line, [mkTok src .Star cur cur₁ line])
      | '!' =>
          match charMatch src bl cur₁ '=' with
          | .ok (b, cur₂) =>
              .ok (none, cur₂, line,
                [mkTok src (if b then .BangEqual else .Bang) cur cur₂ line])
          | .err m => .err m
          | .crash m => .crash m
          | .fuelOut => .fuelOut
      | '=' =>
          match charMatch src bl cur₁ '=' with
          | .ok (b, cur₂) =>
              .ok (none, cur₂, line,
                [mkTok src (if b then .EqualEqual else .Equal) cur cur₂ line])
          | .err m => .err m
          | .crash m => .crash m
          | .fuelOut => .fuelOut
      | '<' =>
          match charMatch src bl cur₁ '=' with
          | .ok (b, cur₂) =>
              .ok (none, cur₂, line,
                [mkTok src (if b then .LessEqual else .Less) cur cur₂ line])
          | .err m => .err m
          | .crash m => .crash m
          | .fuelOut => .fuelOut
      | '>' =>
          match charMatch src bl cur₁ '=' with
          | .ok (b, cur₂) =>
              .ok (none, cur₂, line,
                [mkTok src (if b then .GreaterEqual else .Greater) cur cur₂ line])
          | .err m => .err m
          | .crash m => .crash m
          | .fuelOut => .fuelOut
      | '/' =>
          match charMatch src bl cur₁ '/' with
          | .ok (true, cur₂) =>
              match commentLoop src bl (bl - cur₂ + 1) cur₂ with
              | .ok cur₃ => .ok (none, cur₃, line, [])
              | .err m => .err m
              | .crash m => .crash m
              | .fuelOut => .fuelOut
          | .ok (false, cur₂) =>
              .ok (none, cur₂, line, [mkTok src .Slash cur cur₂ line])
          | .err m => .err m
          | .crash m => .crash m
          | .fuelOut => .fuelOut
      | ' ' => .ok (none, cur₁, line, [])
      | '\r' => .ok (none, cur₁, line, [])
      | '\t' => .ok (none, cur₁, line, [])
      | '\n' => .ok (none, cur₁, line + 1, [])
      | '"' => stringFn src bl cur cur₁ line
      | c =>
          if isDigitCh c then numberFn src bl cur cur₁ line
          else if isAlphaCh c then identifierFn src bl cur cur₁ line
          else
            .ok (some ("Unrecognized char at line " ++ toString line ++ ": "
              ++ String.mk [c]), cur₁, line, [])
  | .err m => .err m
  | .crash m => .crash m
  | .fuelOut => .fuelOut

/-- The `while !self.is_at_end()` loop of `Scanner::scan_tokens`,
accumulating lexical errors and tokens. Returns the errors, the tokens and
the final line number. -/
def scanLoop (src : List Char) (bl : Nat) :
    Nat → Nat → Nat → List String → List Token →
    Res (List String × List Token × Nat)
  | 0, _, _, _, _ => .fuelOut
  | fuel + 1, cur, line, errors, tokens =>
      if bl ≤ cur then .ok (errors, tokens, line)
      else
        match scanToken src bl cur line with
        | .ok (e, cur', line', toks) =>
            scanLoop src bl fuel cur' line'
              (errors ++ e.toList) (tokens ++ toks)
        | .err m => .err m
        | .crash m => .crash m
        | .fuelOut => .fuelOut

/-- The error report: each message followed by a newline, in order. -/
def joinLn (errors : List String) : String :=
  errors.foldl (fun acc m => acc ++ m ++ "\n") ""

/-- `Scanner::scan_tokens`, from `scanner.rs`: run the scan loop over the
whole source, append exactly one end-of-input token, and report the combined
errors if any. The fuel `byteLen src + 1` provably suffices because every
loop iteration advances the cursor. -/
def scan_tokens (src : List Char) :
    Res (Except String Unit × List Token) :=
  match scanLoop src (byteLen src) (byteLen src + 1) 0 1 [] [] with
  | .ok (errors, toks, line) =>
      let toks := toks ++ [⟨TokenType.Eof, "", none, line⟩]
      if errors.length > 0 then .ok (.error (joinLn errors), toks)
      else .ok (.ok (), toks)
  | .err m => .err m
  | .crash m => .crash m
  | .fuelOut => .fuelOut

/-- Rust `Debug` rendering of a whole `Token` (approximate: no verified
statement evaluates it). -/
def tokenDebug (t : Token) : String :=
  "Token \x7b token_type: " ++ tokenTypeDebug t.token_type
    ++ ", lexeme: \"" ++ t.lexeme ++ "\" \x7d"

/-- `Token::to_string`, from `scanner.rs` (`"{:?} {} {:?}"`; the literal
payload's `Debug` form is approximated — no verified statement evaluates
it). -/
def Token.to_string (t : Token) : String :=
  tokenTypeDebug t.token_type ++ " " ++ t.lexeme ++ " "
    ++ (match t.literal with
        | none => "None"
        | some _ => "Some(..)")

/-- `Expr::to_string`, from `ast.rs` (the tree printer). -/
def Expr.to_string : Expr → String
  | .Assign name value =>
      "(" ++ tokenDebug name ++ "=" ++ value.to_string ++ ")"
  | .Binary left operator right =>
      "(" ++ operator.lexeme ++ " " ++ left.to_string ++ " "
        ++ right.to_string ++ ")"
  | .Grouping expression => "(group " ++ expression.to_string ++ ")"
  | .Literal value => value.to_string
  | .Unary operator right =>
      "(" ++ operator.lexeme ++ " " ++ right.to_string ++ ")"
  | .Variable name => "(var " ++ name.lexeme ++ ")"
  | .Logical left operator right =>
      "(" ++ operator.to_string ++ " " ++ left.to_string ++ " "
        ++ right.to_string ++ ")"
  | .Call calee paren _ =>
      "(call " ++ calee.to_string ++ " " ++ paren.to_string ++ " [..])"

/-! ## Statements (`stmt.rs`) -/

/-- Statement nodes, from `stmt.rs` (`enum Stmt`). `Box`es become direct
children; the `then`/`else` fields of `IfStmt` are spelled `thenS`/`elsS`. -/
inductive Stmt where
  | Expression (expression : Expr)
  | Print (expression : Expr)
  | Var (name : Token) (ini : Expr)
  | Block (statements : List Stmt)
  | IfStmt (predicate : Expr) (thenS : Stmt) (elsS : Option Stmt)
  | WhileStmt (condition : Expr) (body : Stmt)
  | ForStmt (var_decl : Option Stmt) (expr_stmt : Option Stmt)
      (condition : Option Expr) (increment : Option Expr) (body : Stmt)
deriving Repr

mutual

/-- `Stmt::to_string`, from `stmt.rs`; the `todo!()` arms for `IfStmt`,
`WhileStmt` and `ForStmt` become `crash`. -/
def Stmt.to_string : Stmt → Res String
  | .Expression expression => .ok expression.to_string
  | .Print expression => .ok ("(print " ++ expression.to_string ++ ")")
  | .Var name _ => .ok ("(var " ++ name.lexeme ++ ")")
  | .Block statements =>
      match Stmt.toStringList statements with
      | .ok s => .ok ("(block " ++ s ++ ")")
      | .err m => .err m
      | .crash m => .crash m
      | .fuelOut => .fuelOut
  | .IfStmt _ _ _ => .crash "not yet implemented"
  | .WhileStmt _ _ => .crash "not yet implemented"
  | .ForStmt _ _ _ _ _ => .crash "not yet implemented"

/-- The `collect::<String>()` over the statements of a block. -/
def Stmt.toStringList : List Stmt → Res String
  | [] => .ok ""
  | s :: rest =>
      match Stmt.to_string s with
      | .ok str =>
          match Stmt.toStringList rest with
          | .ok strs => .ok (str ++ strs)
          | .err m => .err m
          | .crash m => .crash m
          | .fuelOut => .fuelOut
      | .err m => .err m
      | .crash m => .crash m
      | .fuelOut => .fuelOut

end

/-! ## Parser (`parser.rs`)

The parser's mutable `current` cursor becomes an explicit index `i` into the
fixed token list `ts`; every routine returns its production together with the
new cursor.  Rust's direct `self.tokens[...]` indexing can only go out of
range on token sequences that do not end in an end-of-input token (the
scanner always appends one); out-of-range peeks are modelled by a default
end-of-input token.  The mutual recursion is fueled; concrete runs use a
fuel that is ample for the input, and every universal statement below
quantifies over all fuels. -/

/-- Error-propagating sequencing, as Rust's `?` operator. -/
def Res.bind {α β : Type} : Res α → (α → Res β) → Res β
  | .ok a, f => f a
  | .err m, _ => .err m
  | .crash m, _ => .crash m
  | .fuelOut, _ => .fuelOut

/-- Default token for out-of-range accesses (unreachable on end-of-input
terminated token sequences). -/
def eofTok : Token := ⟨TokenType.Eof, "", none, 0⟩

/-- `Parser::peek`. -/
def peekT (ts : List Token) (i : Nat) : Token := ts.getD i eofTok

/-- `Parser::previous`. -/
def previousT (ts : List Token) (i : Nat) : Token := ts.getD (i - 1) eofTok

/-- `Parser::is_at_end`. -/
def isAtEndP (ts : List Token) (i : Nat) : Bool :=
  (peekT ts i).token_type = TokenType.Eof

/-- `Parser::advance`: the new cursor (the returned token is
`previousT ts` of it). -/
def advanceT (ts : List Token) (i : Nat) : Nat :=
  if isAtEndP ts i then i else i + 1

/-- `Parser::match_token`: whether the next token matched (and was consumed),
with the new cursor. -/
def matchToken (ts : List Token) (i : Nat) (tt : TokenType) : Bool × Nat :=
  if isAtEndP ts i then (false, i)
  else if (peekT ts i).token_type = tt then (true, advanceT ts i)
  else (false, i)

/-- `Parser::match_tokens`: try each kind in order. -/
def matchTokens (ts : List Token) (i : Nat) :
    List TokenType → Bool × Nat
  | [] => (false, i)
  | tt :: rest =>
      match matchToken ts i tt with
      | (true, i') => (true, i')
      | (false, _) => matchTokens ts i rest

/-- `Parser::check`. -/
def checkT (ts : List Token) (i : Nat) (tt : TokenType) : Bool :=
  (peekT ts i).token_type = tt

/-- `Parser::consume`. -/
def consumeT (ts : List Token) (i : Nat) (tt : TokenType) (msg : String) :
    Res (Token × Nat) :=
  if (peekT ts i).token_type = tt then
    let i' := advanceT ts i
    .ok (previousT ts i', i')
  else .err msg

/-- The tail of `Parser::for_statement` (`parser.rs` lines 116–131): build
the desugared statement from the parsed initializer, condition, increment
and body. -/
def mkFor (ini : Option Stmt) (cond : Option Expr) (incr : Option Expr)
    (body : Stmt) : Stmt :=
  let body₁ :=
    match incr with
    | some inc => Stmt.Block [body, Stmt.Expression inc]
    | none => body
  let cond' :=
    match cond with
    | none => Expr.Literal LiteralValue.True
    | some c => c
  let body₂ := Stmt.WhileStmt cond' body₁
  match ini with
  | some i => Stmt.Block [i, body₂]
  | none => body₂

mutual

/-- `Parser::declaration`. -/
def declaration (ts : List Token) (fuel i : Nat) : Res (Stmt × Nat) :=
  match fuel with
  | 0 => .fuelOut
  | fuel + 1 =>
      match matchToken ts i TokenType.Var with
      | (true, i₁) => var_declaration ts fuel i₁
      | (false, _) => statement ts fuel i
termination_by structural fuel

/-- `Parser::var_declaration`. -/
def var_declaration (ts : List Token) (fuel i : Nat) : Res (Stmt × Nat) :=
  match fuel with
  | 0 => .fuelOut
  | fuel + 1 =>
      (consumeT ts i TokenType.Identifier "Expected variable name").bind
        fun (token, i₁) =>
      match matchToken ts i₁ TokenType.Equal with
      | (true, i₂) =>
          (expression ts fuel i₂).bind fun (ini, i₃) =>
          (consumeT ts i₃ TokenType.Semicolon
            "Expected ';' after variable declaration").bind fun (_, i₄) =>
          .ok (Stmt.Var token ini, i₄)
      | (false, _) =>
          (consumeT ts i₁ TokenType.Semicolon
            "Expected ';' after variable declaration").bind fun (_, i₂) =>
          .ok (Stmt.Var token (Expr.Literal LiteralValue.Nil), i₂)

/-- `Parser::statement`. -/
def statement (ts : List Token) (fuel i : Nat) : Res (Stmt × Nat) :=
  match fuel with
  | 0 => .fuelOut
  | fuel + 1 =>
      match matchToken ts i TokenType.Print with
      | (true, i₁) => print_statement ts fuel i₁
      | (false, _) =>
      match matchToken ts i TokenType.LeftBrace with
      | (true, i₁) => block_statement ts fuel i₁
      | (false, _) =>
      match matchToken ts i TokenType.If with
      | (true, i₁) => if_statement ts fuel i₁
      | (false, _) =>
      match matchToken ts i TokenType.While with
      | (true, i₁) => while_statement ts fuel i₁
      | (false, _) =>
      match matchToken ts i TokenType.For with
      | (true, i₁) => for_statement ts fuel i₁
      | (false, _) => expression_statement ts fuel i
termination_by structural fuel

/-- `Parser::for_statement` (header and body parsing; the construction of
the result is `mkFor`). -/
def for_statement (ts : List Token) (fuel i : Nat) : Res (Stmt × Nat) :=
  match fuel with
  | 0 => .fuelOut
  | fuel + 1 =>
      (consumeT ts i TokenType.LeftParen "Expected '(' after 'for'.").bind
        fun (_, i₁) =>
      ((match matchToken ts i₁ TokenType.Semicolon with
       | (true, i₂) => .ok (none, i₂)
       | (false, _) =>
          match matchToken ts i₁ TokenType.Var with
          | (true, i₂) =>
              (var_declaration ts fuel i₂).bind fun (s, i₃) =>
                .ok (some s, i₃)
          | (false, _) =>
              (expression_statement ts fuel i₁).bind fun (s, i₃) =>
                .ok (some s, i₃) : Res (Option Stmt × Nat))).bind
        fun (ini, i₂) =>
      ((if !(checkT ts i₂ TokenType.Semicolon) then
          (expression ts fuel i₂).bind fun (e, i₃) => .ok (some e, i₃)
        else .ok (none, i₂) : Res (Option Expr × Nat))).bind
        fun (cond, i₃) =>
      (consumeT ts i₃ TokenType.Semicolon
        "Expected ';' after loop condition.").bind fun (_, i₄) =>
      ((if !(checkT ts i₄ TokenType.RightParen) then
          (expression ts fuel i₄).bind fun (e, i₅) => .ok (some e, i₅)
        else .ok (none, i₄) : Res (Option Expr × Nat))).bind
        fun (incr, i₅) =>
      (consumeT ts i₅ TokenType.RightParen
        "Expected ')' after for clauses.").bind fun (_, i₆) =>
      (statement ts fuel i₆).bind fun (body, i₇) =>
      .ok (mkFor ini cond incr body, i₇)
termination_by structural fuel

/-- `Parser::while_statement`. -/
def while_statement (ts : List Token) (fuel i : Nat) : Res (Stmt × Nat) :=
  match fuel with
  | 0 => .fuelOut
  | fuel + 1 =>
      (consumeT ts i TokenType.LeftParen "Expected '(' after 'while'").bind
        fun (_, i₁) =>
      (expression ts fuel i₁).bind fun (condition, i₂) =>
      (consumeT ts i₂ TokenType.RightParen
        "Expected ')' after condition").bind fun (_, i₃) =>
      (statement ts fuel i₃).bind fun (body, i₄) =>
      .ok (Stmt.WhileStmt condition body, i₄)
termination_by structural fuel

/-- `Parser::if_statement`. -/
def if_statement (ts : List Token) (fuel i : Nat) : Res (Stmt × Nat) :=
  match fuel with
  | 0 => .fuelOut
  | fuel + 1 =>
      (consumeT ts i TokenType.LeftParen "Expected '(' after 'if'").bind
        fun (_, i₁) =>
      (expression ts fuel i₁).bind fun (predicate, i₂) =>
      (consumeT ts i₂ TokenType.RightParen
        "Expected ')' after if-predicate").bind fun (_, i₃) =>
      (statement ts fuel i₃).bind fun (thenS, i₄) =>
      match matchToken ts i₄ TokenType.Else with
      | (true, i₅) =>
          (statement ts fuel i₅).bind fun (els, i₆) =>
          .ok (Stmt.IfStmt predicate thenS (some els), i₆)
      | (false, _) => .ok (Stmt.IfStmt predicate thenS none, i₄)
termination_by structural fuel

/-- The declaration loop of `Parser::block_statement`. -/
def blockLoop (ts : List Token) (fuel i : Nat) (acc : List Stmt) :
    Res (List Stmt × Nat) :=
  match fuel with
  | 0 => .fuelOut
  | fuel + 1 =>
      if !(checkT ts i TokenType.RightBrace) && !(isAtEndP ts i) then
        (declaration ts fuel i).bind fun (decl, i₁) =>
        blockLoop ts fuel i₁ (acc ++ [decl])
      else
        (consumeT ts i TokenType.RightBrace "Expected '\x7d' after block.").bind
          fun (_, i₁) =>
        .ok (acc, i₁)
termination_by structural fuel

/-- `Parser::block_statement`. -/
def block_statement (ts : List Token) (fuel i : Nat) : Res (Stmt × Nat) :=
  match fuel with
  | 0 => .fuelOut
  | fuel + 1 =>
      (blockLoop ts fuel i []).bind fun (statements, i₁) =>
      .ok (Stmt.Block statements, i₁)
termination_by structural fuel

/-- `Parser::print_statement`. -/
def print_statement (ts : List Token) (fuel i : Nat) : Res (Stmt × Nat) :=
  match fuel with
  | 0 => .fuelOut
  | fuel + 1 =>
      (expression ts fuel i).bind fun (value, i₁) =>
      (consumeT ts i₁ TokenType.Semicolon "Expected ';' after value.").bind
        fun (_, i₂) =>
      .ok (Stmt.Print value, i₂)

/-- `Parser::expression_statement`. -/
def expression_statement (ts : List Token) (fuel i : Nat) :
    Res (Stmt × Nat) :=
  match fuel with
  | 0 => .fuelOut
  | fuel + 1 =>
      (expression ts fuel i).bind fun (e, i₁) =>
      (consumeT ts i₁ TokenType.Semicolon
        "Expected ';' after expression.").bind fun (_, i₂) =>
      .ok (Stmt.Expression e, i₂)

/-- `Parser::expression`. -/
def expression (ts : List Token) (fuel i : Nat) : Res (Expr × Nat) :=
  match fuel with
  | 0 => .fuelOut
  | fuel + 1 => assignment ts fuel i
termination_by structural fuel

/-- `Parser::assignment`. -/
def assignment (ts : List Token) (fuel i : Nat) : Res (Expr × Nat) :=
  match fuel with
  | 0 => .fuelOut
  | fuel + 1 =>
      (orP ts fuel i).bind fun (expr, i₁) =>
      match matchToken ts i₁ TokenType.Equal with
      | (true, i₂) =>
          (assignment ts fuel i₂).bind fun (value, i₃) =>
          match expr with
          | Expr.Variable name => .ok (Expr.Assign name value, i₃)
          | _ => .err "Invalid assignment target."
      | (false, _) => .ok (expr, i₁)
termination_by structural fuel

/-- `Parser::or`. -/
def orP (ts : List Token) (fuel i : Nat) : Res (Expr × Nat) :=
  match fuel with
  | 0 => .fuelOut
  | fuel + 1 =>
      (andP ts fuel i).bind fun (expr, i₁) =>
      orLoop ts fuel i₁ expr
termination_by structural fuel

/-- The operator loop of `Parser::or`. -/
def orLoop (ts : List Token) (fuel i : Nat) (expr : Expr) :
    Res (Expr × Nat) :=
  match fuel with
  | 0 => .fuelOut
  | fuel + 1 =>
      match matchToken ts i TokenType.Or with
      | (true, i₁) =>
          let operator := previousT ts i₁
          (andP ts fuel i₁).bind fun (right, i₂) =>
          orLoop ts fuel i₂ (Expr.Logical expr operator right)
      | (false, _) => .ok (expr, i)
termination_by structural fuel

/-- `Parser::and`. -/
def andP (ts : List Token) (fuel i : Nat) : Res (Expr × Nat) :=
  match fuel with
  | 0 => .fuelOut
  | fuel + 1 =>
      (equality ts fuel i).bind fun (expr, i₁) =>
      andLoop ts fuel i₁ expr
termination_by structural fuel

/-- The operator loop of `Parser::and`. -/
def andLoop (ts : List Token) (fuel i : Nat) (expr : Expr) :
    Res (Expr × Nat) :=
  match fuel with
  | 0 => .fuelOut
  | fuel + 1 =>
      match matchToken ts i TokenType.And with
      | (true, i₁) =>
          let operator := previousT ts i₁
          (equality ts fuel i₁).bind fun (right, i₂) =>
          andLoop ts fuel i₂ (Expr.Logical expr operator right)
      | (false, _) => .ok (expr, i)
termination_by structural fuel

/-- `Parser::equality`. -/
def equality (ts : List Token) (fuel i : Nat) : Res (Expr × Nat) :=
  match fuel with
  | 0 => .fuelOut
  | fuel + 1 =>
      (comparison ts fuel i).bind fun (expr, i₁) =>
      eqLoop ts fuel i₁ expr
termination_by structural fuel

/-- The operator loop of `Parser::equality`. -/
def eqLoop (ts : List Token) (fuel i : Nat) (expr : Expr) :
    Res (Expr × Nat) :=
  match fuel with
  | 0 => .fuelOut
  | fuel + 1 =>
      match matchTokens ts i [TokenType.BangEqual, TokenType.EqualEqual] with
      | (true, i₁) =>
          let operator := previousT ts i₁
          (comparison ts fuel i₁).bind fun (rhs, i₂) =>
          eqLoop ts fuel i₂ (Expr.Binary expr operator rhs)
      | (false, _) => .ok (expr, i)
termination_by structural fuel

/-- `Parser::comparison`. -/
def comparison (ts : List Token) (fuel i : Nat) : Res (Expr × Nat) :=
  match fuel with
  | 0 => .fuelOut
  | fuel + 1 =>
      (term ts fuel i).bind fun (expr, i₁) =>
      compLoop ts fuel i₁ expr
termination_by structural fuel

/-- The operator loop of `Parser::comparison`. -/
def compLoop (ts : List Token) (fuel i : Nat) (expr : Expr) :
    Res (Expr × Nat) :=
  match fuel with
  | 0 => .fuelOut
  | fuel + 1 =>
      match matchTokens ts i [TokenType.Greater, TokenType.GreaterEqual,
          TokenType.Less, TokenType.LessEqual] with
      | (true, i₁) =>
          let op := previousT ts i₁
          (term ts fuel i₁).bind fun (rhs, i₂) =>
          compLoop ts fuel i₂ (Expr.Binary expr op rhs)
      | (false, _) => .ok (expr, i)
termination_by structural fuel

/-- `Parser::term`: one `factor`, then the `-`/`+`/`%` operator loop. -/
def term (ts : List Token) (fuel i : Nat) : Res (Expr × Nat) :=
  match fuel with
  | 0 => .fuelOut
  | fuel + 1 =>
      (factor ts fuel i).bind fun (expr, i₁) =>
      termLoop ts fuel i₁ expr
termination_by structural fuel

/-- The operator loop of `Parser::term`. -/
def termLoop (ts : List Token) (fuel i : Nat) (expr : Expr) :
    Res (Expr × Nat) :=
  match fuel with
  | 0 => .fuelOut
  | fuel + 1 =>
      match matchTokens ts i [TokenType.Minus, TokenType.Plus,
          TokenType.Percent] with
      | (true, i₁) =>
          let op := previousT ts i₁
          (factor ts fuel i₁).bind fun (rhs, i₂) =>
          termLoop ts fuel i₂ (Expr.Binary expr op rhs)
      | (false, _) => .ok (expr, i)
termination_by structural fuel

/-- `Parser::factor`: one `unary`, then the `/`/`*` operator loop. -/
def factor (ts : List Token) (fuel i : Nat) : Res (Expr × Nat) :=
  match fuel with
  | 0 => .fuelOut
  | fuel + 1 =>
      (unary ts fuel i).bind fun (expr, i₁) =>
      factorLoop ts fuel i₁ expr
termination_by structural fuel

/-- The operator loop of `Parser::factor`. -/
def factorLoop (ts : List Token) (fuel i : Nat) (expr : Expr) :
    Res (Expr × Nat) :=
  match fuel with
  | 0 => .fuelOut
  | fuel + 1 =>
      match matchTokens ts i [TokenType.Slash, TokenType.Star] with
      | (true, i₁) =>
          let op := previousT ts i₁
          (unary ts fuel i₁).bind fun (rhs, i₂) =>
          factorLoop ts fuel i₂ (Expr.Binary expr op rhs)
      | (false, _) => .ok (expr, i)
termination_by structural fuel

/-- `Parser::unary`. -/
def unary (ts : List Token) (fuel i : Nat) : Res (Expr × Nat) :=
  match fuel with
  | 0 => .fuelOut
  | fuel + 1 =>
      match matchTokens ts i [TokenType.Bang, TokenType.Minus] with
      | (true, i₁) =>
          let op := previousT ts i₁
          (unary ts fuel i₁).bind fun (rhs, i₂) =>
          .ok (Expr.Unary op rhs, i₂)
      | (false, _) => primary ts fuel i
termination_by structural fuel

/-- `Parser::primary`. Note the Rust source lists `TokenType::Percent` among
the literal-starting token kinds; on such a token `from_token` panics
(`crash`). -/
def primary (ts : List Token) (fuel i : Nat) : Res (Expr × Nat) :=
  match fuel with
  | 0 => .fuelOut
  | fuel + 1 =>
      let token := peekT ts i
      match token.token_type with
      | TokenType.LeftParen =>
          let i₁ := advanceT ts i
          (expression ts fuel i₁).bind fun (e, i₂) =>
          (consumeT ts i₂ TokenType.RightParen "Expected ')'").bind
            fun (_, i₃) =>
          .ok (Expr.Grouping e, i₃)
      | TokenType.False | TokenType.True | TokenType.Nil
      | TokenType.Number | TokenType.Percent | TokenType.String =>
          let i₁ := advanceT ts i
          (LiteralValue.from_token token).bind fun v =>
          .ok (Expr.Literal v, i₁)
      | TokenType.Identifier =>
          let i₁ := advanceT ts i
          .ok (Expr.Variable (previousT ts i₁), i₁)
      | _ => .err "Expected expression"

termination_by structural fuel
end

/-- The skip loop of `Parser::syncronize` (the Rust source's spelling). -/
def syncLoop (ts : List Token) (fuel i : Nat) : Res Nat :=
  match fuel with
  | 0 => .fuelOut
  | fuel + 1 =>
      if isAtEndP ts i then .ok i
      else if (previousT ts i).token_type = TokenType.Semicolon then .ok i
      else
        match (peekT ts i).token_type with
        | TokenType.Class | TokenType.Fun | TokenType.Var | TokenType.If
        | TokenType.While | TokenType.Print | TokenType.Return => .ok i
        | _ => syncLoop ts fuel (advanceT ts i)

/-- `Parser::syncronize`. -/
def syncronize (ts : List Token) (fuel i : Nat) : Res Nat :=
  match fuel with
  | 0 => .fuelOut
  | fuel + 1 => syncLoop ts fuel (advanceT ts i)

/-- The declaration loop of `Parser::parse`, collecting statements and
error messages. -/
def parseLoop (ts : List Token) (fuel : Nat) (i : Nat)
    (stmts : List Stmt) (errors : List String) : Res (List Stmt) :=
  match fuel with
  | 0 => .fuelOut
  | fuel + 1 =>
      if isAtEndP ts i then
        if errors.length = 0 then .ok stmts
        else .err (String.intercalate "\n" errors)
      else
        match declaration ts fuel i with
        | .ok (s, i₁) => parseLoop ts fuel i₁ (stmts ++ [s]) errors
        | .err m =>
            (syncronize ts fuel i).bind fun i₁ =>
            parseLoop ts fuel i₁ stmts (errors ++ [m])
        | .crash m => .crash m
        | .fuelOut => .fuelOut

/-- `Parser::parse`. -/
def parse (ts : List Token) (fuel : Nat) : Res (List Stmt) :=
  parseLoop ts fuel 0 [] []

/-- `run`'s front half from `main.rs`: scan, abort on a lexical report, else
parse (with ample fuel for the input). -/
def scanAndParse (source : String) : Res (List Stmt) :=
  match scan_tokens source.data with
  | .ok (Except.ok _, toks) => parse toks (10 * (toks.length + 1))
  | .ok (Except.error e, _) => .err e
  | .err m => .err m
  | .crash m => .crash m
  | .fuelOut => .fuelOut

/-! ## Evaluator theorems -/

/-- An `==` operator token. -/
def eqeqToken : Token := ⟨TokenType.EqualEqual, "==", none, 1⟩

/-- A `!=` operator token. -/
def bangEqToken : Token := ⟨TokenType.BangEqual, "!=", none, 1⟩

/-- An `or` operator token. -/
def orToken : Token := ⟨TokenType.Or, "or", none, 1⟩

/-- An `and` operator token. -/
def andToken : Token := ⟨TokenType.And, "and", none, 1⟩

/-- One operand is a Text and the other a Number. -/
def mixedTextNumber : LiteralValue → LiteralValue → Bool
  | .StringValue _, .Number _ => true
  | .Number _, .StringValue _ => true
  | _, _ => false

/-- C1 counterexample: evaluating `"a" == 1` — a Text compared to a Number —
does not succeed; it fails with the type-mismatch error, because the
evaluator's Text/Number mismatch arms precede its `==`/`!=` arms. -/
theorem text_number_equality_fails :
    (Expr.Binary (.Literal (.StringValue "a")) eqeqToken
        (.Literal (.Number 1))).evaluate (.root [])
      = .err "EqualEqual is not defined for string and numbers" := rfl

/-- C1 (amended): `==`/`!=` on any pair of values succeed and return the
structural equality/inequality — cross-kind pairs compare unequal — except
when one operand is a Text and the other a Number, in which case both
operators fail with the type-mismatch error. -/
theorem equality_structural_except_text_number
    (x y : LiteralValue) (env : Environment) :
    (mixedTextNumber x y = true →
      (Expr.Binary (.Literal x) eqeqToken (.Literal y)).evaluate env
        = .err "EqualEqual is not defined for string and numbers" ∧
      (Expr.Binary (.Literal x) bangEqToken (.Literal y)).evaluate env
        = .err "BangEqual is not defined for string and numbers") ∧
    (mixedTextNumber x y = false →
      (Expr.Binary (.Literal x) eqeqToken (.Literal y)).evaluate env
        = .ok (.from_bool (decide (x = y)), env) ∧
      (Expr.Binary (.Literal x) bangEqToken (.Literal y)).evaluate env
        = .ok (.from_bool (decide (x ≠ y)), env)) := by
  cases x <;> cases y <;>
    simp [Expr.evaluate, mixedTextNumber, eqeqToken, bangEqToken,
      tokenTypeDebug]

/-- Witness for C1 (amended): a mixed pair fails with the type-mismatch
error; a cross-kind non-mixed pair compares unequal. -/
theorem equality_structural_except_text_number_witness :
    (Expr.Binary (.Literal (.Number 2)) bangEqToken
        (.Literal (.StringValue "b"))).evaluate (.root [])
      = .err "BangEqual is not defined for string and numbers" ∧
    (Expr.Binary (.Literal .True) eqeqToken (.Literal .Nil)).evaluate (.root [])
      = .ok (.False, .root []) := by
  constructor
  · exact ((equality_structural_except_text_number (.Number 2)
      (.StringValue "b") (.root [])).1 (by decide)).2
  · have h := ((equality_structural_except_text_number .True .Nil
      (.root [])).2 (by decide)).1
    simpa using h

/-- C8: `or` evaluates the left operand and, when its truthy-conversion is
`True`, returns the left value itself without evaluating the right operand;
otherwise it evaluates and returns the right.  `and` evaluates the left
operand and, when it is falsy, immediately returns the converted boolean
`False` (not the left value) without evaluating the right operand; otherwise
it evaluates and returns the right. -/
theorem logical_short_circuit
    (l r : Expr) (tokOr tokAnd : Token) (env : Environment)
    (hor : tokOr.token_type = TokenType.Or)
    (hand : tokAnd.token_type = TokenType.And) :
    ∀ v env₁, l.evaluate env = .ok (v, env₁) →
      (v.is_truthy = .True →
        (Expr.Logical l tokOr r).evaluate env = .ok (v, env₁)) ∧
      (v.is_truthy ≠ .True →
        (Expr.Logical l tokOr r).evaluate env = r.evaluate env₁) ∧
      (v.is_truthy = .False →
        (Expr.Logical l tokAnd r).evaluate env = .ok (.False, env₁)) ∧
      (v.is_truthy ≠ .False →
        (Expr.Logical l tokAnd r).evaluate env = r.evaluate env₁) := by
  intro v env₁ hl
  refine ⟨?_, ?_, ?_, ?_⟩ <;> intro h <;>
    simp [Expr.evaluate, hor, hand, hl, h]

/-- Witness for C8: `1 or nil` returns the left value `1` itself, and
`0 and nil` returns the converted `False`, with the right operand's value
never surfacing. -/
theorem logical_short_circuit_witness :
    (Expr.Logical (.Literal (.Number 1)) orToken
        (.Literal .Nil)).evaluate (.root [])
      = .ok (.Number 1, .root []) ∧
    (Expr.Logical (.Literal (.Number 0)) andToken
        (.Literal .Nil)).evaluate (.root [])
      = .ok (.False, .root []) := by
  constructor
  · exact (logical_short_circuit (.Literal (.Number 1)) (.Literal .Nil)
      orToken andToken (.root []) rfl rfl (.Number 1) (.root []) rfl).1
      (by decide)
  · exact (logical_short_circuit (.Literal (.Number 0)) (.Literal .Nil)
      orToken andToken (.root []) rfl rfl (.Number 0) (.root []) rfl).2.2.1
      (by decide)

/-- After a successful assignment, looking the name up in the updated chain
finds the assigned value (the nearest defining scope was overwritten). -/
theorem Environment.assign_get (n : String) (v : LiteralValue) :
    ∀ env env' : Environment, env.assign n v = some env' →
      env'.get n = some v := by
  have hlk : ∀ vs, lookupVal (insertVal vs n v) n = some v := by
    intro vs
    induction vs with
    | nil => simp [insertVal, lookupVal]
    | cons hd tl ih =>
        obtain ⟨k, u⟩ := hd
        by_cases h : k = n <;> simp [insertVal, lookupVal, h, ih]
  intro env
  induction env with
  | root values =>
      intro env' h
      cases hl : lookupVal values n with
      | some w =>
          simp [assign, hl] at h
          subst h
          simp [get, hlk]
      | none => simp [assign, hl] at h
  | child values parent ih =>
      intro env' h
      cases hl : lookupVal values n with
      | some w =>
          simp [assign, hl] at h
          subst h
          simp [get, hlk]
      | none =>
          cases hp : parent.assign n v with
          | some parent' =>
              simp [assign, hl, hp] at h
              subst h
              simp [get, hl, ih parent' hp]
          | none => simp [assign, hl, hp] at h

/-- C10: when evaluating an assignment succeeds — the right-hand side
evaluates to `v` and the name is declared in some enclosing scope so the
assign succeeds — the assignment expression itself evaluates to `v`, and the
updated chain maps the name to `v`. -/
theorem assign_expression_evaluates_to_assigned_value
    (name : Token) (e : Expr) (env env₁ env₂ : Environment)
    (v : LiteralValue)
    (he : e.evaluate env = .ok (v, env₁))
    (ha : env₁.assign name.lexeme v = some env₂) :
    (Expr.Assign name e).evaluate env = .ok (v, env₂) ∧
    env₂.get name.lexeme = some v := by
  constructor
  · simp [Expr.evaluate, he, ha]
  · exact Environment.assign_get name.lexeme v env₁ env₂ ha

/-- Witness for C10: assigning `5` to a declared `x` evaluates to `5` and
updates the binding. -/
theorem assign_expression_evaluates_to_assigned_value_witness :
    (Expr.Assign ⟨TokenType.Identifier, "x", none, 1⟩
        (.Literal (.Number 5))).evaluate (.root [("x", .Nil)])
      = .ok (.Number 5, .root [("x", .Number 5)]) ∧
    (Environment.root [("x", .Number 5)]).get "x" = some (.Number 5) :=
  assign_expression_evaluates_to_assigned_value
    ⟨TokenType.Identifier, "x", none, 1⟩ (.Literal (.Number 5))
    (.root [("x", .Nil)]) (.root [("x", .Nil)]) (.root [("x", .Number 5)])
    (.Number 5) rfl rfl

/-! ## Parser theorems -/

/-- C3: parsing is not panic-free. On the token sequence of `%;` — where the
token at a primary position is neither a literal, a left parenthesis nor an
identifier — the parser does not return the "Expected expression" syntax
error: `primary` lists `Percent` among the literal-starting kinds, consumes
it, and `LiteralValue::from_token` panics. On `*;`, whose first token is
also none of the three, the promised error is returned. -/
theorem primary_percent_crashes :
    scanAndParse "%;" = .crash "Could not create LiteralValue from token" ∧
    scanAndParse "*;" = .err "Expected expression" := ⟨rfl, rfl⟩

/-- C6: scanning is not total over all input texts. On the one-character
source `é` (two UTF-8 bytes, one character) the scan panics — `is_at_end`
compares the character cursor with the byte length, so after consuming the
only character the loop runs again and `chars().nth(current).unwrap()`
fails — instead of terminating with an appended end-of-input token. -/
theorem scan_crashes_on_non_ascii :
    scan_tokens "é".data = .crash "char index out of range" := rfl

/-- C5 counterexample: scanning an unterminated string on line 5 produces the
constant report `"Unterminated string\n"`, which does not contain the current
line number (no `5` occurs in it) — and on non-ASCII input (`"é` ) scanning
panics rather than continuing to end of input. -/
theorem unterminated_string_report_lacks_line_number :
    (scan_tokens "\n\n\n\n\"ABC".data
      = .ok (.error "Unterminated string\n",
          [⟨TokenType.Eof, "", none, 5⟩])) ∧
    ¬ ("5".data <:+: "Unterminated string\n".data) ∧
    scan_tokens "\"é".data = .crash "char index out of range" :=
  ⟨rfl, by decide, rfl⟩

/-! ### Left-associative binary levels (C7)

The four binary precedence levels share one loop shape: parse one operand at
the next-higher level, then repeatedly consume a matching operator token and
fold in another operand.  `NumOpsAt` describes a stretch of tokens
`op operand op operand …` (with number-literal operands) starting at a given
cursor, ending where the next token is not one of the level's operators; the
fold lemmas show each level's loop maps such a stretch to the left-leaning
`foldl` of `Binary` nodes. -/

/-- A stretch of `operator number-literal` token pairs from cursor `i` to
cursor `j`: each operator is one of `ops`, each operand is a number literal,
and the token after each pair is not in `blockers` (so the next-higher level
does not consume it); the stretch ends when the next token is not in
`ops`. -/
inductive NumOpsAt (ts : List Token) (ops blockers : List TokenType) :
    Nat → List (Token × LiteralValue) → Nat → Prop where
  | nil (i : Nat)
      (hstop : (peekT ts i).token_type ∉ ops ∨
        (peekT ts i).token_type = TokenType.Eof) :
      NumOpsAt ts ops blockers i [] i
  | cons (i : Nat) (o : Token) (v : LiteralValue)
      (rest : List (Token × LiteralValue)) (j : Nat)
      (ho : peekT ts i = o)
      (hmem : o.token_type ∈ ops)
      (hne : o.token_type ≠ TokenType.Eof)
      (hnum : (peekT ts (i + 1)).token_type = TokenType.Number)
      (hv : LiteralValue.from_token (peekT ts (i + 1)) = .ok v)
      (hblock : (peekT ts (i + 2)).token_type ∉ blockers ∨
        (peekT ts (i + 2)).token_type = TokenType.Eof)
      (hrest : NumOpsAt ts ops blockers (i + 2) rest j) :
      NumOpsAt ts ops blockers i ((o, v) :: rest) j

/-- The left fold of `Binary` nodes over an operator/operand stretch: the
left-leaning tree. -/
def foldBinary (e : Expr) (ops : List (Token × LiteralValue)) : Expr :=
  ops.foldl (fun acc p => Expr.Binary acc p.1 (Expr.Literal p.2)) e

theorem matchTokens_pos (ts : List Token) (i : Nat) (tts : List TokenType)
    (h : (peekT ts i).token_type ∈ tts)
    (hne : (peekT ts i).token_type ≠ TokenType.Eof) :
    matchTokens ts i tts = (true, i + 1) := by
  induction tts with
  | nil => cases h
  | cons tt rest ih =>
      by_cases heq : (peekT ts i).token_type = tt
      · have hne' : tt ≠ TokenType.Eof := heq ▸ hne
        simp [matchTokens, matchToken, isAtEndP, hne, heq, advanceT, hne']
      · have hmem : (peekT ts i).token_type ∈ rest := by
          rcases List.mem_cons.mp h with h' | h'
          · exact absurd h' heq
          · exact h'
        simp [matchTokens, matchToken, isAtEndP, hne, heq, ih hmem]

theorem matchTokens_neg (ts : List Token) (i : Nat) (tts : List TokenType)
    (h : (peekT ts i).token_type ∉ tts ∨
      (peekT ts i).token_type = TokenType.Eof) :
    matchTokens ts i tts = (false, i) := by
  induction tts with
  | nil => rfl
  | cons tt rest ih =>
      rcases h with hnm | heof
      · have h1 : (peekT ts i).token_type ≠ tt := fun hc => hnm (by simp [hc])
        have h2 : (peekT ts i).token_type ∉ rest := fun hc => hnm (by simp [hc])
        by_cases heof : (peekT ts i).token_type = TokenType.Eof
        · simp [matchTokens, matchToken, isAtEndP, heof, ih (Or.inr heof)]
        · simp [matchTokens, matchToken, isAtEndP, heof, h1, ih (Or.inl h2)]
      · simp [matchTokens, matchToken, isAtEndP, heof, ih (Or.inr heof)]

theorem primary_num (ts : List Token) (i : Nat) (v : LiteralValue)
    (fuel : Nat)
    (hnum : (peekT ts i).token_type = TokenType.Number)
    (hv : LiteralValue.from_token (peekT ts i) = .ok v)
    (hf : 1 ≤ fuel) :
    primary ts fuel i = .ok (.Literal v, i + 1) := by
  obtain ⟨f, rfl⟩ : ∃ f, fuel = f + 1 := ⟨fuel - 1, by omega⟩
  simp [primary, hnum, hv, Res.bind, advanceT, isAtEndP]

theorem unary_num (ts : List Token) (i : Nat) (v : LiteralValue)
    (fuel : Nat)
    (hnum : (peekT ts i).token_type = TokenType.Number)
    (hv : LiteralValue.from_token (peekT ts i) = .ok v)
    (hf : 2 ≤ fuel) :
    unary ts fuel i = .ok (.Literal v, i + 1) := by
  obtain ⟨f, rfl⟩ : ∃ f, fuel = f + 1 := ⟨fuel - 1, by omega⟩
  have hmt : matchTokens ts i [TokenType.Bang, TokenType.Minus] = (false, i) :=
    matchTokens_neg ts i _ (Or.inl (by simp [hnum]))
  simp [unary, hmt, primary_num ts i v f hnum hv (by omega)]

theorem factor_num (ts : List Token) (i : Nat) (v : LiteralValue)
    (fuel : Nat)
    (hnum : (peekT ts i).token_type = TokenType.Number)
    (hv : LiteralValue.from_token (peekT ts i) = .ok v)
    (hblock : (peekT ts (i + 1)).token_type ∉
        [TokenType.Slash, TokenType.Star] ∨
      (peekT ts (i + 1)).token_type = TokenType.Eof)
    (hf : 3 ≤ fuel) :
    factor ts fuel i = .ok (.Literal v, i + 1) := by
  obtain ⟨f, rfl⟩ : ∃ f, fuel = f + 1 := ⟨fuel - 1, by omega⟩
  obtain ⟨g, rfl⟩ : ∃ g, f = g + 1 := ⟨f - 1, by omega⟩
  have hu := unary_num ts i v (g + 1) hnum hv (by omega)
  have hmt := matchTokens_neg ts (i + 1) _ hblock
  simp [factor, hu, Res.bind, factorLoop, hmt]

theorem term_num (ts : List Token) (i : Nat) (v : LiteralValue)
    (fuel : Nat)
    (hnum : (peekT ts i).token_type = TokenType.Number)
    (hv : LiteralValue.from_token (peekT ts i) = .ok v)
    (hb1 : (peekT ts (i + 1)).token_type ∉
        [TokenType.Slash, TokenType.Star] ∨
      (peekT ts (i + 1)).token_type = TokenType.Eof)
    (hb2 : (peekT ts (i + 1)).token_type ∉
        [TokenType.Minus, TokenType.Plus, TokenType.Percent] ∨
      (peekT ts (i + 1)).token_type = TokenType.Eof)
    (hf : 4 ≤ fuel) :
    term ts fuel i = .ok (.Literal v, i + 1) := by
  obtain ⟨f, rfl⟩ : ∃ f, fuel = f + 1 := ⟨fuel - 1, by omega⟩
  obtain ⟨g, rfl⟩ : ∃ g, f = g + 1 := ⟨f - 1, by omega⟩
  have hfa := factor_num ts i v (g + 1) hnum hv hb1 (by omega)
  have hmt := matchTokens_neg ts (i + 1) _ hb2
  simp [term, hfa, Res.bind, termLoop, hmt]

theorem comparison_num (ts : List Token) (i : Nat) (v : LiteralValue)
    (fuel : Nat)
    (hnum : (peekT ts i).token_type = TokenType.Number)
    (hv : LiteralValue.from_token (peekT ts i) = .ok v)
    (hb1 : (peekT ts (i + 1)).token_type ∉
        [TokenType.Slash, TokenType.Star] ∨
      (peekT ts (i + 1)).token_type = TokenType.Eof)
    (hb2 : (peekT ts (i + 1)).token_type ∉
        [TokenType.Minus, TokenType.Plus, TokenType.Percent] ∨
      (peekT ts (i + 1)).token_type = TokenType.Eof)
    (hb3 : (peekT ts (i + 1)).token_type ∉
        [TokenType.Greater, TokenType.GreaterEqual,
         TokenType.Less, TokenType.LessEqual] ∨
      (peekT ts (i + 1)).token_type = TokenType.Eof)
    (hf : 5 ≤ fuel) :
    comparison ts fuel i = .ok (.Literal v, i + 1) := by
  obtain ⟨f, rfl⟩ : ∃ f, fuel = f + 1 := ⟨fuel - 1, by omega⟩
  obtain ⟨g, rfl⟩ : ∃ g, f = g + 1 := ⟨f - 1, by omega⟩
  have ht := term_num ts i v (g + 1) hnum hv hb1 hb2 (by omega)
  have hmt := matchTokens_neg ts (i + 1) _ hb3
  simp [comparison, ht, Res.bind, compLoop, hmt]

theorem termLoop_fold (ts : List Token) :
    ∀ (i : Nat) (ops : List (Token × LiteralValue)) (j : Nat),
      NumOpsAt ts [TokenType.Minus, TokenType.Plus, TokenType.Percent]
        [TokenType.Slash, TokenType.Star] i ops j →
      ∀ fuel e, ops.length + 4 ≤ fuel →
        termLoop ts fuel i e = .ok (foldBinary e ops, j) := by
  intro i ops j h
  induction h with
  | nil i hstop =>
      intro fuel e hf
      obtain ⟨f, rfl⟩ : ∃ f, fuel = f + 1 := ⟨fuel - 1, by omega⟩
      simp [termLoop, matchTokens_neg ts i _ hstop, foldBinary]
  | cons i o v rest j ho hmem hne hnum hv hblock hrest ih =>
      intro fuel e hf
      obtain ⟨f, rfl⟩ : ∃ f, fuel = f + 1 := ⟨fuel - 1, by omega⟩
      have hmt := matchTokens_pos ts i
        [TokenType.Minus, TokenType.Plus, TokenType.Percent]
        (by rw [ho]; exact hmem) (by rw [ho]; exact hne)
      have hprev : previousT ts (i + 1) = o := by
        rw [← ho]; simp [previousT, peekT]
      have hfa := factor_num ts (i + 1) v f hnum hv hblock (by omega)
      have hrec := ih f (Expr.Binary e o (Expr.Literal v)) (by simp at hf ⊢; omega)
      simp [termLoop, hmt, hprev, hfa, Res.bind, hrec, foldBinary]

theorem factorLoop_fold (ts : List Token) :
    ∀ (i : Nat) (ops : List (Token × LiteralValue)) (j : Nat),
      NumOpsAt ts [TokenType.Slash, TokenType.Star] [] i ops j →
      ∀ fuel e, ops.length + 3 ≤ fuel →
        factorLoop ts fuel i e = .ok (foldBinary e ops, j) := by
  intro i ops j h
  induction h with
  | nil i hstop =>
      intro fuel e hf
      obtain ⟨f, rfl⟩ : ∃ f, fuel = f + 1 := ⟨fuel - 1, by omega⟩
      simp [factorLoop, matchTokens_neg ts i _ hstop, foldBinary]
  | cons i o v rest j ho hmem hne hnum hv hblock hrest ih =>
      intro fuel e hf
      obtain ⟨f, rfl⟩ : ∃ f, fuel = f + 1 := ⟨fuel - 1, by omega⟩
      have hmt := matchTokens_pos ts i [TokenType.Slash, TokenType.Star]
        (by rw [ho]; exact hmem) (by rw [ho]; exact hne)
      have hprev : previousT ts (i + 1) = o := by
        rw [← ho]; simp [previousT, peekT]
      have hu := unary_num ts (i + 1) v f hnum hv (by omega)
      have hrec := ih f (Expr.Binary e o (Expr.Literal v)) (by simp at hf ⊢; omega)
      simp [factorLoop, hmt, hprev, hu, Res.bind, hrec, foldBinary]

theorem compLoop_fold (ts : List Token) :
    ∀ (i : Nat) (ops : List (Token × LiteralValue)) (j : Nat),
      NumOpsAt ts [TokenType.Greater, TokenType.GreaterEqual,
          TokenType.Less, TokenType.LessEqual]
        [TokenType.Slash, TokenType.Star, TokenType.Minus, TokenType.Plus,
          TokenType.Percent] i ops j →
      ∀ fuel e, ops.length + 5 ≤ fuel →
        compLoop ts fuel i e = .ok (foldBinary e ops, j) := by
  intro i ops j h
  induction h with
  | nil i hstop =>
      intro fuel e hf
      obtain ⟨f, rfl⟩ : ∃ f, fuel = f + 1 := ⟨fuel - 1, by omega⟩
      simp [compLoop, matchTokens_neg ts i _ hstop, foldBinary]
  | cons i o v rest j ho hmem hne hnum hv hblock hrest ih =>
      intro fuel e hf
      obtain ⟨f, rfl⟩ : ∃ f, fuel = f + 1 := ⟨fuel - 1, by omega⟩
      have hmt := matchTokens_pos ts i [TokenType.Greater,
        TokenType.GreaterEqual, TokenType.Less, TokenType.LessEqual]
        (by rw [ho]; exact hmem) (by rw [ho]; exact hne)
      have hprev : previousT ts (i + 1) = o := by
        rw [← ho]; simp [previousT, peekT]
      have hb1 : (peekT ts (i + 2)).token_type ∉
          [TokenType.Slash, TokenType.Star] ∨
          (peekT ts (i + 2)).token_type = TokenType.Eof := by
        rcases hblock with hm | hm
        · left; simp at hm ⊢; tauto
        · right; exact hm
      have hb2 : (peekT ts (i + 2)).token_type ∉
          [TokenType.Minus, TokenType.Plus, TokenType.Percent] ∨
          (peekT ts (i + 2)).token_type = TokenType.Eof := by
        rcases hblock with hm | hm
        · left; simp at hm ⊢; tauto
        · right; exact hm
      have ht := term_num ts (i + 1) v f hnum hv hb1 hb2 (by omega)
      have hrec := ih f (Expr.Binary e o (Expr.Literal v)) (by simp at hf ⊢; omega)
      simp [compLoop, hmt, hprev, ht, Res.bind, hrec, foldBinary]

theorem eqLoop_fold (ts : List Token) :
    ∀ (i : Nat) (ops : List (Token × LiteralValue)) (j : Nat),
      NumOpsAt ts [TokenType.BangEqual, TokenType.EqualEqual]
        [TokenType.Slash, TokenType.Star, TokenType.Minus, TokenType.Plus,
          TokenType.Percent, TokenType.Greater, TokenType.GreaterEqual,
          TokenType.Less, TokenType.LessEqual] i ops j →
      ∀ fuel e, ops.length + 6 ≤ fuel →
        eqLoop ts fuel i e = .ok (foldBinary e ops, j) := by
  intro i ops j h
  induction h with
  | nil i hstop =>
      intro fuel e hf
      obtain ⟨f, rfl⟩ : ∃ f, fuel = f + 1 := ⟨fuel - 1, by omega⟩
      simp [eqLoop, matchTokens_neg ts i _ hstop, foldBinary]
  | cons i o v rest j ho hmem hne hnum hv hblock hrest ih =>
      intro fuel e hf
      obtain ⟨f, rfl⟩ : ∃ f, fuel = f + 1 := ⟨fuel - 1, by omega⟩
      have hmt := matchTokens_pos ts i
        [TokenType.BangEqual, TokenType.EqualEqual]
        (by rw [ho]; exact hmem) (by rw [ho]; exact hne)
      have hprev : previousT ts (i + 1) = o := by
        rw [← ho]; simp [previousT, peekT]
      have hb1 : (peekT ts (i + 2)).token_type ∉
          [TokenType.Slash, TokenType.Star] ∨
          (peekT ts (i + 2)).token_type = TokenType.Eof := by
        rcases hblock with hm | hm
        · left; simp at hm ⊢; tauto
        · right; exact hm
      have hb2 : (peekT ts (i + 2)).token_type ∉
          [TokenType.Minus, TokenType.Plus, TokenType.Percent] ∨
          (peekT ts (i + 2)).token_type = TokenType.Eof := by
        rcases hblock with hm | hm
        · left; simp at hm ⊢; tauto
        · right; exact hm
      have hb3 : (peekT ts (i + 2)).token_type ∉
          [TokenType.Greater, TokenType.GreaterEqual,
           TokenType.Less, TokenType.LessEqual] ∨
          (peekT ts (i + 2)).token_type = TokenType.Eof := by
        rcases hblock with hm | hm
        · left; simp at hm ⊢; tauto
        · right; exact hm
      have hc := comparison_num ts (i + 1) v f hnum hv hb1 hb2 hb3 (by omega)
      have hrec := ih f (Expr.Binary e o (Expr.Literal v)) (by simp at hf ⊢; omega)
      simp [eqLoop, hmt, hprev, hc, Res.bind, hrec, foldBinary]

/-- C7: `%` sits at the term level with `+` and `-` (binding less tightly
than `*` and `/`), and every binary precedence level is left-associative,
folding repeated operators into a left-leaning tree.  Concretely, the spec's
example `1 + 2 == 5 + 7;` parses to `(== (+ 1 2) (+ 5 7))` and
`1 - 2 % 3 * 4;` parses to `(% (- 1 2) (* 3 4))`; generally, each level's
operator loop maps any `op number op number …` stretch to the left `foldl`
of `Binary` nodes over it. -/
theorem binary_levels_left_associative :
    ((scanAndParse "1 + 2 == 5 + 7;").bind Stmt.toStringList
      = .ok "(== (+ 1 2) (+ 5 7))") ∧
    ((scanAndParse "1 - 2 % 3 * 4;").bind Stmt.toStringList
      = .ok "(% (- 1 2) (* 3 4))") ∧
    (∀ ts i ops j,
      NumOpsAt ts [TokenType.Minus, TokenType.Plus, TokenType.Percent]
        [TokenType.Slash, TokenType.Star] i ops j →
      ∀ fuel e, ops.length + 4 ≤ fuel →
        termLoop ts fuel i e = .ok (foldBinary e ops, j)) ∧
    (∀ ts i ops j,
      NumOpsAt ts [TokenType.Slash, TokenType.Star] [] i ops j →
      ∀ fuel e, ops.length + 3 ≤ fuel →
        factorLoop ts fuel i e = .ok (foldBinary e ops, j)) ∧
    (∀ ts i ops j,
      NumOpsAt ts [TokenType.Greater, TokenType.GreaterEqual,
          TokenType.Less, TokenType.LessEqual]
        [TokenType.Slash, TokenType.Star, TokenType.Minus, TokenType.Plus,
          TokenType.Percent] i ops j →
      ∀ fuel e, ops.length + 5 ≤ fuel →
        compLoop ts fuel i e = .ok (foldBinary e ops, j)) ∧
    (∀ ts i ops j,
      NumOpsAt ts [TokenType.BangEqual, TokenType.EqualEqual]
        [TokenType.Slash, TokenType.Star, TokenType.Minus, TokenType.Plus,
          TokenType.Percent, TokenType.Greater, TokenType.GreaterEqual,
          TokenType.Less, TokenType.LessEqual] i ops j →
      ∀ fuel e, ops.length + 6 ≤ fuel →
        eqLoop ts fuel i e = .ok (foldBinary e ops, j)) :=
  ⟨rfl, rfl, termLoop_fold, factorLoop_fold, compLoop_fold, eqLoop_fold⟩

/-- The token sequence of `1 + 2 % 3;` (as the scanner produces it). -/
def termWitnessTokens : List Token :=
  [⟨TokenType.Number, "1", some (.FloatValue 1), 1⟩,
   ⟨TokenType.Plus, "+", none, 1⟩,
   ⟨TokenType.Number, "2", some (.FloatValue 2), 1⟩,
   ⟨TokenType.Percent, "%", none, 1⟩,
   ⟨TokenType.Number, "3", some (.FloatValue 3), 1⟩,
   ⟨TokenType.Semicolon, ";", none, 1⟩,
   ⟨TokenType.Eof, "", none, 1⟩]

/-- Witness for C7: on the tokens of `1 + 2 % 3;`, the term-level loop folds
`+ 2` then `% 3` onto the leading `1` as a left-leaning tree. -/
theorem binary_levels_left_associative_witness :
    termLoop termWitnessTokens 10 1 (Expr.Literal (.Number 1))
      = .ok (Expr.Binary
          (Expr.Binary (Expr.Literal (.Number 1))
            ⟨TokenType.Plus, "+", none, 1⟩ (Expr.Literal (.Number 2)))
          ⟨TokenType.Percent, "%", none, 1⟩ (Expr.Literal (.Number 3)), 5) := by
  have hops : NumOpsAt termWitnessTokens
      [TokenType.Minus, TokenType.Plus, TokenType.Percent]
      [TokenType.Slash, TokenType.Star] 1
      [(⟨TokenType.Plus, "+", none, 1⟩, .Number 2),
       (⟨TokenType.Percent, "%", none, 1⟩, .Number 3)] 5 := by
    refine NumOpsAt.cons 1 _ _ _ 5 rfl (by decide) (by decide) rfl rfl
      (by left; decide) ?_
    refine NumOpsAt.cons 3 _ _ _ 5 rfl (by decide) (by decide) rfl rfl
      (by left; decide) ?_
    exact NumOpsAt.nil 5 (by left; decide)
  have h := binary_levels_left_associative.2.2.1 termWitnessTokens 1
    [(⟨TokenType.Plus, "+", none, 1⟩, .Number 2),
     (⟨TokenType.Percent, "%", none, 1⟩, .Number 3)] 5 hops 10
    (Expr.Literal (.Number 1)) (by simp)
  simpa [foldBinary] using h

/-! ### Parser output contains no `Call` and no `ForStmt` nodes (C2, C4) -/

/-- Whether an expression contains a `Call` node anywhere. -/
def exprHasCall : Expr → Bool
  | .Assign _ v => exprHasCall v
  | .Binary l _ r => exprHasCall l || exprHasCall r
  | .Grouping e => exprHasCall e
  | .Literal _ => false
  | .Unary _ r => exprHasCall r
  | .Variable _ => false
  | .Logical l _ r => exprHasCall l || exprHasCall r
  | .Call _ _ _ => true

mutual

/-- Whether a statement contains a `Call` expression node anywhere. -/
def stmtHasCall : Stmt → Bool
  | .Expression e => exprHasCall e
  | .Print e => exprHasCall e
  | .Var _ ini => exprHasCall ini
  | .Block ss => stmtsHasCall ss
  | .IfStmt p t e =>
      exprHasCall p || stmtHasCall t ||
        (match e with | some s => stmtHasCall s | none => false)
  | .WhileStmt c b => exprHasCall c || stmtHasCall b
  | .ForStmt vd es c inc b =>
      (match vd with | some s => stmtHasCall s | none => false) ||
      (match es with | some s => stmtHasCall s | none => false) ||
      (match c with | some e => exprHasCall e | none => false) ||
      (match inc with | some e => exprHasCall e | none => false) ||
      stmtHasCall b

/-- Whether any statement of a list contains a `Call` node. -/
def stmtsHasCall : List Stmt → Bool
  | [] => false
  | s :: rest => stmtHasCall s || stmtsHasCall rest

end

mutual

/-- Whether a statement contains a `ForStmt` node anywhere. -/
def stmtHasFor : Stmt → Bool
  | .Expression _ => false
  | .Print _ => false
  | .Var _ _ => false
  | .Block ss => stmtsHasFor ss
  | .IfStmt _ t e =>
      stmtHasFor t || (match e with | some s => stmtHasFor s | none => false)
  | .WhileStmt _ b => stmtHasFor b
  | .ForStmt _ _ _ _ _ => true

/-- Whether any statement of a list contains a `ForStmt` node. -/
def stmtsHasFor : List Stmt → Bool
  | [] => false
  | s :: rest => stmtHasFor s || stmtsHasFor rest

end

/-- An expression free of `Call` nodes. -/
def exprOK (e : Expr) : Bool := !(exprHasCall e)

/-- A statement free of `Call` and `ForStmt` nodes. -/
def stmtOK (s : Stmt) : Bool := !(stmtHasCall s) && !(stmtHasFor s)

/-- Decompose a successful `Res.bind`. -/
theorem Res.bind_ok {α β : Type} {x : Res α} {f : α → Res β} {b : β}
    (h : x.bind f = .ok b) : ∃ a, x = .ok a ∧ f a = .ok b := by
  cases x with
  | ok a => exact ⟨a, rfl, h⟩
  | err m => simp [Res.bind] at h
  | crash m => simp [Res.bind] at h
  | fuelOut => simp [Res.bind] at h

/-- The desugaring of a `for` statement exactly as the specification §4.4
prescribes it: if an increment exists the body becomes a `Block` of
`[body, Expression(increment)]`; the effective condition is the parsed one
or `Literal(True)`; the result is `While(effective condition, body)`, wrapped
in a `Block` with the initializer when one exists. -/
def desugarForSpec (ini : Option Stmt) (cond : Option Expr)
    (incr : Option Expr) (body : Stmt) : Stmt :=
  let body' :=
    match incr with
    | some inc => Stmt.Block [body, Stmt.Expression inc]
    | none => body
  let cond' := cond.getD (Expr.Literal LiteralValue.True)
  let w := Stmt.WhileStmt cond' body'
  match ini with
  | some i => Stmt.Block [i, w]
  | none => w

/-- The code's `for` construction agrees with the specification's desugaring
on every combination of parsed components. -/
theorem mkFor_eq_desugarForSpec (ini : Option Stmt) (cond : Option Expr)
    (incr : Option Expr) (body : Stmt) :
    mkFor ini cond incr body = desugarForSpec ini cond incr body := by
  cases ini <;> cases cond <;> cases incr <;> rfl

/-- Every successful `for_statement` parse returns exactly a desugared tree:
`mkFor` of the parsed initializer, condition, increment and body. -/
theorem for_statement_shape (ts : List Token) (fuel i : Nat) (s : Stmt)
    (j : Nat) (h : for_statement ts fuel i = .ok (s, j)) :
    ∃ ini cond incr body, s = mkFor ini cond incr body := by
  match fuel with
  | 0 => simp [for_statement] at h
  | fuel + 1 =>
      rw [for_statement] at h
      obtain ⟨⟨t₁, i₁⟩, h₁, h⟩ := Res.bind_ok h
      obtain ⟨⟨ini, i₂⟩, h₂, h⟩ := Res.bind_ok h
      obtain ⟨⟨cond, i₃⟩, h₃, h⟩ := Res.bind_ok h
      obtain ⟨⟨t₂, i₄⟩, h₄, h⟩ := Res.bind_ok h
      obtain ⟨⟨incr, i₅⟩, h₅, h⟩ := Res.bind_ok h
      obtain ⟨⟨t₃, i₆⟩, h₆, h⟩ := Res.bind_ok h
      obtain ⟨⟨body, i₇⟩, h₇, h⟩ := Res.bind_ok h
      exact ⟨ini, cond, incr, body, by cases h; rfl⟩

/-- A result of statement kind whose success value is node-pure. -/
def stmtResOK (r : Res (Stmt × Nat)) : Prop :=
  ∀ s j, r = .ok (s, j) → stmtOK s = true

/-- A result of expression kind whose success value is node-pure. -/
def exprResOK (r : Res (Expr × Nat)) : Prop :=
  ∀ e j, r = .ok (e, j) → exprOK e = true

theorem stmtOK_block {ss : List Stmt} (h : ∀ s ∈ ss, stmtOK s = true) :
    stmtOK (Stmt.Block ss) = true := by
  induction ss with
  | nil => rfl
  | cons hd tl ih =>
      have hhd := h hd (by simp)
      have htl := ih (fun s hs => h s (by simp [hs]))
      simp [stmtOK, stmtHasCall, stmtHasFor, stmtsHasCall, stmtsHasFor] at hhd htl ⊢
      exact ⟨⟨hhd.1, htl.1⟩, hhd.2, htl.2⟩

theorem stmtOK_mkFor {ini : Option Stmt} {cond incr : Option Expr}
    {body : Stmt}
    (hini : ∀ s, ini = some s → stmtOK s = true)
    (hcond : ∀ e, cond = some e → exprOK e = true)
    (hincr : ∀ e, incr = some e → exprOK e = true)
    (hbody : stmtOK body = true) :
    stmtOK (mkFor ini cond incr body) = true := by
  cases ini <;> cases cond <;> cases incr <;>
    simp_all [mkFor, stmtOK, stmtHasCall, stmtHasFor, stmtsHasCall,
      stmtsHasFor, exprOK, exprHasCall]

/-- Structural purity of the recursive-descent parser: every successfully
produced statement is free of `Call` and `ForStmt` nodes, at every fuel, for
every routine of the mutual block. -/
theorem parserPure : ∀ fuel : Nat,
    (∀ ts i, stmtResOK (declaration ts fuel i)) ∧
    (∀ ts i, stmtResOK (var_declaration ts fuel i)) ∧
    (∀ ts i, stmtResOK (statement ts fuel i)) ∧
    (∀ ts i, stmtResOK (for_statement ts fuel i)) ∧
    (∀ ts i, stmtResOK (while_statement ts fuel i)) ∧
    (∀ ts i, stmtResOK (if_statement ts fuel i)) ∧
    (∀ ts i acc, (∀ s ∈ acc, stmtOK s = true) →
      ∀ ss j, blockLoop ts fuel i acc = .ok (ss, j) →
        ∀ s ∈ ss, stmtOK s = true) ∧
    (∀ ts i, stmtResOK (block_statement ts fuel i)) ∧
    (∀ ts i, stmtResOK (print_statement ts fuel i)) ∧
    (∀ ts i, stmtResOK (expression_statement ts fuel i)) ∧
    (∀ ts i, exprResOK (expression ts fuel i)) ∧
    (∀ ts i, exprResOK (assignment ts fuel i)) ∧
    (∀ ts i, exprResOK (orP ts fuel i)) ∧
    (∀ ts i e, exprOK e = true → exprResOK (orLoop ts fuel i e)) ∧
    (∀ ts i, exprResOK (andP ts fuel i)) ∧
    (∀ ts i e, exprOK e = true → exprResOK (andLoop ts fuel i e)) ∧
    (∀ ts i, exprResOK (equality ts fuel i)) ∧
    (∀ ts i e, exprOK e = true → exprResOK (eqLoop ts fuel i e)) ∧
    (∀ ts i, exprResOK (comparison ts fuel i)) ∧
    (∀ ts i e, exprOK e = true → exprResOK (compLoop ts fuel i e)) ∧
    (∀ ts i, exprResOK (term ts fuel i)) ∧
    (∀ ts i e, exprOK e = true → exprResOK (termLoop ts fuel i e)) ∧
    (∀ ts i, exprResOK (factor ts fuel i)) ∧
    (∀ ts i e, exprOK e = true → exprResOK (factorLoop ts fuel i e)) ∧
    (∀ ts i, exprResOK (unary ts fuel i)) ∧
    (∀ ts i, exprResOK (primary ts fuel i)) := by
  intro fuel
  induction fuel with
  | zero =>
      refine ⟨?_, ?_, ?_, ?_, ?_, ?_, ?_, ?_, ?_, ?_, ?_, ?_, ?_, ?_, ?_,
        ?_, ?_, ?_, ?_, ?_, ?_, ?_, ?_, ?_, ?_, ?_⟩ <;>
        intro ts i <;>
        first
        | (intro s j h; simp [declaration, var_declaration, statement,
            for_statement, while_statement, if_statement, block_statement,
            print_statement, expression_statement] at h)
        | (intro acc hacc ss j h; simp [blockLoop] at h)
        | (intro s j h; simp [expression, assignment, orP, andP, equality,
            comparison, term, factor, unary, primary] at h)
        | (intro e he s j h; simp [orLoop, andLoop, eqLoop, compLoop,
            termLoop, factorLoop] at h)
  | succ fuel ih =>
      obtain ⟨ihDecl, ihVarD, ihStmt, ihFor, ihWhile, ihIf, ihBlockL,
        ihBlockS, ihPrint, ihExprS, ihExpr, ihAssign, ihOrP, ihOrL, ihAndP,
        ihAndL, ihEq, ihEqL, ihComp, ihCompL, ihTerm, ihTermL, ihFactor,
        ihFactorL, ihUnary, ihPrimary⟩ := ih
      refine ⟨?_, ?_, ?_, ?_, ?_, ?_, ?_, ?_, ?_, ?_, ?_, ?_, ?_, ?_, ?_,
        ?_, ?_, ?_, ?_, ?_, ?_, ?_, ?_, ?_, ?_, ?_⟩
      -- declaration
      · intro ts i s j h
        rw [declaration] at h
        rcases hm : matchToken ts i TokenType.Var with ⟨b, i₁⟩
        rw [hm] at h
        cases b
        · exact ihStmt ts i s j h
        · exact ihVarD ts i₁ s j h
      -- var_declaration
      · intro ts i s j h
        rw [var_declaration] at h
        obtain ⟨⟨token, i₁⟩, h₁, h⟩ := Res.bind_ok h
        dsimp only at h
        rcases hm : matchToken ts i₁ TokenType.Equal with ⟨b, i₂⟩
        rw [hm] at h
        cases b
        · obtain ⟨⟨t₂, i₃⟩, h₂, h⟩ := Res.bind_ok h
          cases h
          simp [stmtOK, stmtHasCall, stmtHasFor, exprHasCall]
        · obtain ⟨⟨ini, i₃⟩, hE, h⟩ := Res.bind_ok h
          obtain ⟨⟨t₂, i₄⟩, h₂, h⟩ := Res.bind_ok h
          dsimp only at h
          cases h
          have hok := ihExpr ts i₂ ini i₃ hE
          simp [stmtOK, stmtHasCall, stmtHasFor, exprOK] at hok ⊢
          exact hok
      -- statement
      · intro ts i s j h
        rw [statement] at h
        rcases h₁ : matchToken ts i TokenType.Print with ⟨b₁, i₁⟩
        rw [h₁] at h
        cases b₁
        case true => exact ihPrint ts i₁ s j h
        case false =>
        rcases h₂ : matchToken ts i TokenType.LeftBrace with ⟨b₂, i₂⟩
        rw [h₂] at h
        cases b₂
        case true => exact ihBlockS ts i₂ s j h
        case false =>
        rcases h₃ : matchToken ts i TokenType.If with ⟨b₃, i₃⟩
        rw [h₃] at h
        cases b₃
        case true => exact ihIf ts i₃ s j h
        case false =>
        rcases h₄ : matchToken ts i TokenType.While with ⟨b₄, i₄⟩
        rw [h₄] at h
        cases b₄
        case true => exact ihWhile ts i₄ s j h
        case false =>
        rcases h₅ : matchToken ts i TokenType.For with ⟨b₅, i₅⟩
        rw [h₅] at h
        cases b₅
        case true => exact ihFor ts i₅ s j h
        case false => exact ihExprS ts i s j h
      -- for_statement
      · intro ts i s j h
        rw [for_statement] at h
        obtain ⟨⟨t₁, i₁⟩, h₁, h⟩ := Res.bind_ok h
        dsimp only at h
        obtain ⟨⟨ini, i₂⟩, h₂, h⟩ := Res.bind_ok h
        dsimp only at h
        obtain ⟨⟨cond, i₃⟩, h₃, h⟩ := Res.bind_ok h
        dsimp only at h
        obtain ⟨⟨t₂, i₄⟩, h₄, h⟩ := Res.bind_ok h
        dsimp only at h
        obtain ⟨⟨incr, i₅⟩, h₅, h⟩ := Res.bind_ok h
        dsimp only at h
        obtain ⟨⟨t₃, i₆⟩, h₆, h⟩ := Res.bind_ok h
        dsimp only at h
        obtain ⟨⟨body, i₇⟩, h₇, h⟩ := Res.bind_ok h
        dsimp only at h
        have hbodyOK := ihStmt ts i₆ body i₇ h₇
        cases h
        have hiniOK : ∀ s', ini = some s' → stmtOK s' = true := by
          intro s' hs'
          subst hs'
          rcases hm : matchToken ts i₁ TokenType.Semicolon with ⟨b, k⟩
          rw [hm] at h₂
          cases b
          case true => simp at h₂
          case false =>
          rcases hm' : matchToken ts i₁ TokenType.Var with ⟨b', k'⟩
          rw [hm'] at h₂
          cases b'
          case true =>
              obtain ⟨⟨d, k₂⟩, hd, h₂⟩ := Res.bind_ok h₂
              dsimp only at h₂
              have hdOK := ihVarD ts k' d k₂ hd
              cases h₂
              exact hdOK
          case false =>
              obtain ⟨⟨d, k₂⟩, hd, h₂⟩ := Res.bind_ok h₂
              dsimp only at h₂
              have hdOK := ihExprS ts i₁ d k₂ hd
              cases h₂
              exact hdOK
        have hcondOK : ∀ e, cond = some e → exprOK e = true := by
          intro e he
          subst he
          split at h₃
          · obtain ⟨⟨e', k⟩, he', h₃⟩ := Res.bind_ok h₃
            dsimp only at h₃
            have heOK := ihExpr ts i₂ e' k he'
            cases h₃
            exact heOK
          · simp at h₃
        have hincrOK : ∀ e, incr = some e → exprOK e = true := by
          intro e he
          subst he
          split at h₅
          · obtain ⟨⟨e', k⟩, he', h₅⟩ := Res.bind_ok h₅
            dsimp only at h₅
            have heOK := ihExpr ts i₄ e' k he'
            cases h₅
            exact heOK
          · simp at h₅
        exact stmtOK_mkFor hiniOK hcondOK hincrOK hbodyOK
      -- while_statement
      · intro ts i s j h
        rw [while_statement] at h
        obtain ⟨⟨t₁, i₁⟩, h₁, h⟩ := Res.bind_ok h
        dsimp only at h
        obtain ⟨⟨condition, i₂⟩, h₂, h⟩ := Res.bind_ok h
        dsimp only at h
        obtain ⟨⟨t₂, i₃⟩, h₃, h⟩ := Res.bind_ok h
        dsimp only at h
        obtain ⟨⟨body, i₄⟩, h₄, h⟩ := Res.bind_ok h
        dsimp only at h
        have hc := ihExpr ts i₁ condition i₂ h₂
        have hb := ihStmt ts i₃ body i₄ h₄
        cases h
        simp [stmtOK, stmtHasCall, stmtHasFor, exprOK] at hc hb ⊢
        tauto
      -- if_statement
      · intro ts i s j h
        rw [if_statement] at h
        obtain ⟨⟨t₁, i₁⟩, h₁, h⟩ := Res.bind_ok h
        dsimp only at h
        obtain ⟨⟨predicate, i₂⟩, h₂, h⟩ := Res.bind_ok h
        dsimp only at h
        obtain ⟨⟨t₂, i₃⟩, h₃, h⟩ := Res.bind_ok h
        dsimp only at h
        obtain ⟨⟨thenS, i₄⟩, h₄, h⟩ := Res.bind_ok h
        dsimp only at h
        have hp := ihExpr ts i₁ predicate i₂ h₂
        have ht := ihStmt ts i₃ thenS i₄ h₄
        rcases hm : matchToken ts i₄ TokenType.Else with ⟨b, i₅⟩
        rw [hm] at h
        cases b
        case false =>
            cases h
            simp [stmtOK, stmtHasCall, stmtHasFor, exprOK] at hp ht ⊢
            tauto
        case true =>
            obtain ⟨⟨els, i₆⟩, h₅, h⟩ := Res.bind_ok h
            dsimp only at h
            have he := ihStmt ts i₅ els i₆ h₅
            cases h
            simp [stmtOK, stmtHasCall, stmtHasFor, exprOK] at hp ht he ⊢
            tauto
      -- blockLoop
      · intro ts i acc hacc ss j h
        rw [blockLoop] at h
        split at h
        · obtain ⟨⟨d, i₁⟩, hd, h⟩ := Res.bind_ok h
          have hdOK := ihDecl ts i d i₁ hd
          exact ihBlockL ts i₁ (acc ++ [d])
            (by
              intro s hs
              rcases List.mem_append.mp hs with hs | hs
              · exact hacc s hs
              · simp at hs; subst hs; exact hdOK) ss j h
        · obtain ⟨⟨t₁, i₁⟩, ht, h⟩ := Res.bind_ok h
          cases h
          exact hacc
      -- block_statement
      · intro ts i s j h
        rw [block_statement] at h
        obtain ⟨⟨ss, i₁⟩, hss, h⟩ := Res.bind_ok h
        dsimp only at h
        have hb := stmtOK_block (ihBlockL ts i [] (by simp) ss i₁ hss)
        cases h
        exact hb
      -- print_statement
      · intro ts i s j h
        rw [print_statement] at h
        obtain ⟨⟨value, i₁⟩, h₁, h⟩ := Res.bind_ok h
        dsimp only at h
        obtain ⟨⟨t₁, i₂⟩, h₂, h⟩ := Res.bind_ok h
        dsimp only at h
        have hv := ihExpr ts i value i₁ h₁
        cases h
        simp [stmtOK, stmtHasCall, stmtHasFor, exprOK] at hv ⊢
        exact hv
      -- expression_statement
      · intro ts i s j h
        rw [expression_statement] at h
        obtain ⟨⟨e, i₁⟩, h₁, h⟩ := Res.bind_ok h
        dsimp only at h
        obtain ⟨⟨t₁, i₂⟩, h₂, h⟩ := Res.bind_ok h
        dsimp only at h
        have hv := ihExpr ts i e i₁ h₁
        cases h
        simp [stmtOK, stmtHasCall, stmtHasFor, exprOK] at hv ⊢
        exact hv
      -- expression
      · intro ts i e j h
        rw [expression] at h
        exact ihAssign ts i e j h
      -- assignment
      · intro ts i e j h
        rw [assignment] at h
        obtain ⟨⟨expr, i₁⟩, h₁, h⟩ := Res.bind_ok h
        dsimp only at h
        have he := ihOrP ts i expr i₁ h₁
        rcases hm : matchToken ts i₁ TokenType.Equal with ⟨b, i₂⟩
        rw [hm] at h
        cases b
        case false => cases h; exact he
        case true =>
            obtain ⟨⟨value, i₃⟩, h₂, h⟩ := Res.bind_ok h
            dsimp only at h
            have hv := ihAssign ts i₂ value i₃ h₂
            cases expr <;> simp at h
            case Variable name =>
                rcases h with ⟨rfl, rfl⟩
                simpa [exprOK, exprHasCall] using hv
      -- orP
      · intro ts i e j h
        rw [orP] at h
        obtain ⟨⟨expr, i₁⟩, h₁, h⟩ := Res.bind_ok h
        dsimp only at h
        exact ihOrL ts i₁ expr (ihAndP ts i expr i₁ h₁) e j h
      -- orLoop
      · intro ts i e he e' j h
        rw [orLoop] at h
        rcases hm : matchToken ts i TokenType.Or with ⟨b, i₁⟩
        rw [hm] at h
        cases b
        case false => cases h; exact he
        case true =>
            obtain ⟨⟨right, i₂⟩, h₁, h⟩ := Res.bind_ok h
            dsimp only at h
            have hr := ihAndP ts i₁ right i₂ h₁
            exact ihOrL ts i₂ _
              (by simp [exprOK, exprHasCall] at he hr ⊢; exact ⟨he, hr⟩)
              e' j h
      -- andP
      · intro ts i e j h
        rw [andP] at h
        obtain ⟨⟨expr, i₁⟩, h₁, h⟩ := Res.bind_ok h
        dsimp only at h
        exact ihAndL ts i₁ expr (ihEq ts i expr i₁ h₁) e j h
      -- andLoop
      · intro ts i e he e' j h
        rw [andLoop] at h
        rcases hm : matchToken ts i TokenType.And with ⟨b, i₁⟩
        rw [hm] at h
        cases b
        case false => cases h; exact he
        case true =>
            obtain ⟨⟨right, i₂⟩, h₁, h⟩ := Res.bind_ok h
            dsimp only at h
            have hr := ihEq ts i₁ right i₂ h₁
            exact ihAndL ts i₂ _
              (by simp [exprOK, exprHasCall] at he hr ⊢; exact ⟨he, hr⟩)
              e' j h
      -- equality
      · intro ts i e j h
        rw [equality] at h
        obtain ⟨⟨expr, i₁⟩, h₁, h⟩ := Res.bind_ok h
        dsimp only at h
        exact ihEqL ts i₁ expr (ihComp ts i expr i₁ h₁) e j h
      -- eqLoop
      · intro ts i e he e' j h
        rw [eqLoop] at h
        rcases hm : matchTokens ts i [TokenType.BangEqual,
          TokenType.EqualEqual] with ⟨b, i₁⟩
        rw [hm] at h
        cases b
        case false => cases h; exact he
        case true =>
            obtain ⟨⟨rhs, i₂⟩, h₁, h⟩ := Res.bind_ok h
            dsimp only at h
            have hr := ihComp ts i₁ rhs i₂ h₁
            exact ihEqL ts i₂ _
              (by simp [exprOK, exprHasCall] at he hr ⊢; exact ⟨he, hr⟩)
              e' j h
      -- comparison
      · intro ts i e j h
        rw [comparison] at h
        obtain ⟨⟨expr, i₁⟩, h₁, h⟩ := Res.bind_ok h
        dsimp only at h
        exact ihCompL ts i₁ expr (ihTerm ts i expr i₁ h₁) e j h
      -- compLoop
      · intro ts i e he e' j h
        rw [compLoop] at h
        rcases hm : matchTokens ts i [TokenType.Greater,
          TokenType.GreaterEqual, TokenType.Less, TokenType.LessEqual]
          with ⟨b, i₁⟩
        rw [hm] at h
        cases b
        case false => cases h; exact he
        case true =>
            obtain ⟨⟨rhs, i₂⟩, h₁, h⟩ := Res.bind_ok h
            dsimp only at h
            have hr := ihTerm ts i₁ rhs i₂ h₁
            exact ihCompL ts i₂ _
              (by simp [exprOK, exprHasCall] at he hr ⊢; exact ⟨he, hr⟩)
              e' j h
      -- term
      · intro ts i e j h
        rw [term] at h
        obtain ⟨⟨expr, i₁⟩, h₁, h⟩ := Res.bind_ok h
        dsimp only at h
        exact ihTermL ts i₁ expr (ihFactor ts i expr i₁ h₁) e j h
      -- termLoop
      · intro ts i e he e' j h
        rw [termLoop] at h
        rcases hm : matchTokens ts i [TokenType.Minus, TokenType.Plus,
          TokenType.Percent] with ⟨b, i₁⟩
        rw [hm] at h
        cases b
        case false => cases h; exact he
        case true =>
            obtain ⟨⟨rhs, i₂⟩, h₁, h⟩ := Res.bind_ok h
            dsimp only at h
            have hr := ihFactor ts i₁ rhs i₂ h₁
            exact ihTermL ts i₂ _
              (by simp [exprOK, exprHasCall] at he hr ⊢; exact ⟨he, hr⟩)
              e' j h
      -- factor
      · intro ts i e j h
        rw [factor] at h
        obtain ⟨⟨expr, i₁⟩, h₁, h⟩ := Res.bind_ok h
        dsimp only at h
        exact ihFactorL ts i₁ expr (ihUnary ts i expr i₁ h₁) e j h
      -- factorLoop
      · intro ts i e he e' j h
        rw [factorLoop] at h
        rcases hm : matchTokens ts i [TokenType.Slash, TokenType.Star]
          with ⟨b, i₁⟩
        rw [hm] at h
        cases b
        case false => cases h; exact he
        case true =>
            obtain ⟨⟨rhs, i₂⟩, h₁, h⟩ := Res.bind_ok h
            dsimp only at h
            have hr := ihUnary ts i₁ rhs i₂ h₁
            exact ihFactorL ts i₂ _
              (by simp [exprOK, exprHasCall] at he hr ⊢; exact ⟨he, hr⟩)
              e' j h
      -- unary
      · intro ts i e j h
        rw [unary] at h
        rcases hm : matchTokens ts i [TokenType.Bang, TokenType.Minus]
          with ⟨b, i₁⟩
        rw [hm] at h
        cases b
        case false => exact ihPrimary ts i e j h
        case true =>
            obtain ⟨⟨rhs, i₂⟩, h₁, h⟩ := Res.bind_ok h
            dsimp only at h
            have hr := ihUnary ts i₁ rhs i₂ h₁
            cases h
            simpa [exprOK, exprHasCall] using hr
      -- primary
      · intro ts i e j h
        rw [primary] at h
        dsimp only at h
        cases htt : (peekT ts i).token_type <;> rw [htt] at h <;>
          first
          | (obtain ⟨⟨e', i₂⟩, h₁, h⟩ := Res.bind_ok h
             dsimp only at h
             obtain ⟨⟨t₁, i₃⟩, h₂, h⟩ := Res.bind_ok h
             dsimp only at h
             have hOK := ihExpr ts (advanceT ts i) e' i₂ h₁
             cases h
             simpa [exprOK, exprHasCall] using hOK
             done)
          | (obtain ⟨v, h₁, h⟩ := Res.bind_ok h
             cases h
             simp [exprOK, exprHasCall]
             done)
          | (cases h
             simp [exprOK, exprHasCall]
             done)
          | (simp at h
             done)

/-- Structural purity of the top-level parse loop. -/
theorem parseLoop_pure : ∀ (fuel : Nat) (ts : List Token) (i : Nat)
    (acc : List Stmt) (errs : List String),
    (∀ s ∈ acc, stmtOK s = true) →
    ∀ res, parseLoop ts fuel i acc errs = .ok res →
    ∀ s ∈ res, stmtOK s = true := by
  intro fuel
  induction fuel with
  | zero =>
      intro ts i acc errs hacc res h
      simp [parseLoop] at h
  | succ fuel ih =>
      intro ts i acc errs hacc res h
      rw [parseLoop] at h
      split at h
      · split at h
        · cases h; exact hacc
        · simp at h
      · rcases hd : declaration ts fuel i with ⟨s₁, i₁⟩ | m | m | _ <;>
          rw [hd] at h <;> dsimp only at h
        · exact ih ts i₁ (acc ++ [s₁]) errs
            (by
              intro s hs
              rcases List.mem_append.mp hs with hs | hs
              · exact hacc s hs
              · simp at hs
                subst hs
                exact (parserPure fuel).1 ts i _ _ hd)
            res h
        · obtain ⟨i₁, hsy, h⟩ := Res.bind_ok h
          exact ih ts i₁ acc (errs ++ [m]) hacc res h
        · simp at h
        · simp at h

/-- Every statement of a successful parse is free of `Call` and `ForStmt`
nodes. -/
theorem parse_pure (ts : List Token) (fuel : Nat) (res : List Stmt)
    (h : parse ts fuel = .ok res) :
    ∀ s ∈ res, stmtHasCall s = false ∧ stmtHasFor s = false := by
  intro s hs
  have := parseLoop_pure fuel ts 0 [] [] (by simp) res h s hs
  simp [stmtOK] at this
  exact this

/-- The claim that some token sequence of call shape makes the parser
produce a `Call` expression node. -/
def parserProducesCall : Prop :=
  ∃ ts fuel res, parse ts fuel = .ok res ∧ ∃ s ∈ res, stmtHasCall s = true

/-- C2 counterexample: no token sequence whatsoever makes the parser produce
a `Call` node — the grammar has no call production (`unary` falls directly
through to `primary`, which never builds `Expr.Call`). -/
theorem no_call_production : ¬ parserProducesCall := by
  rintro ⟨ts, fuel, res, hp, s, hs, hc⟩
  have := (parse_pure ts fuel res hp s hs).1
  rw [this] at hc
  cases hc

/-- C2 (amended): the AST defines a `Call` node (callee, call-site token,
argument list) and the evaluator has no rule for it (it panics), but the
parser has no call production: no successfully parsed expression or
statement ever contains a `Call` node. -/
theorem call_node_never_produced :
    (∀ ts fuel i e j, expression ts fuel i = .ok (e, j) →
      exprHasCall e = false) ∧
    (∀ ts fuel res, parse ts fuel = .ok res →
      ∀ s ∈ res, stmtHasCall s = false) ∧
    (∀ calee paren args env,
      (Expr.Call calee paren args).evaluate env
        = .crash "not yet implemented") := by
  refine ⟨?_, ?_, ?_⟩
  · intro ts fuel i e j h
    have := (parserPure fuel).2.2.2.2.2.2.2.2.2.2.1 ts i e j h
    simpa [exprOK] using this
  · intro ts fuel res h s hs
    exact (parse_pure ts fuel res h s hs).1
  · intro calee paren args env
    rfl

/-- The token sequence of `1;`. -/
def oneSemiTokens : List Token :=
  [⟨TokenType.Number, "1", some (.FloatValue 1), 1⟩,
   ⟨TokenType.Semicolon, ";", none, 1⟩,
   ⟨TokenType.Eof, "", none, 1⟩]

/-- Witness for C2 (amended): a concrete parse produces a `Call`-free
statement, and evaluating a concrete `Call` node panics. -/
theorem call_node_never_produced_witness :
    stmtHasCall (Stmt.Expression (Expr.Literal (.Number 1))) = false ∧
    (Expr.Call (Expr.Literal .Nil) eofTok []).evaluate (.root [])
      = .crash "not yet implemented" :=
  ⟨call_node_never_produced.2.1 oneSemiTokens 30
      [Stmt.Expression (Expr.Literal (.Number 1))] rfl _ (by simp),
   call_node_never_produced.2.2 (Expr.Literal .Nil) eofTok [] (.root [])⟩

/-- C4: the parser desugars every `for` statement exactly as the
specification prescribes — the construction agrees with the spec's
desugaring on all components, every successful `for_statement` parse is such
a desugared tree, and no parse result ever contains a dedicated `ForStmt`
node. -/
theorem for_desugars_exactly :
    (∀ ini cond incr body,
      mkFor ini cond incr body = desugarForSpec ini cond incr body) ∧
    (∀ ts fuel i s j, for_statement ts fuel i = .ok (s, j) →
      ∃ ini cond incr body, s = desugarForSpec ini cond incr body) ∧
    (∀ ts fuel res, parse ts fuel = .ok res →
      ∀ s ∈ res, stmtHasFor s = false) := by
  refine ⟨mkFor_eq_desugarForSpec, ?_, ?_⟩
  · intro ts fuel i s j h
    obtain ⟨ini, cond, incr, body, hs⟩ := for_statement_shape ts fuel i s j h
    exact ⟨ini, cond, incr, body, by rw [hs, mkFor_eq_desugarForSpec]⟩
  · intro ts fuel res h s hs
    exact (parse_pure ts fuel res h s hs).2

/-- The token sequence of `for (;;) print 1;`. -/
def forSemiTokens : List Token :=
  [⟨TokenType.For, "for", none, 1⟩,
   ⟨TokenType.LeftParen, "(", none, 1⟩,
   ⟨TokenType.Semicolon, ";", none, 1⟩,
   ⟨TokenType.Semicolon, ";", none, 1⟩,
   ⟨TokenType.RightParen, ")", none, 1⟩,
   ⟨TokenType.Print, "print", none, 1⟩,
   ⟨TokenType.Number, "1", some (.FloatValue 1), 1⟩,
   ⟨TokenType.Semicolon, ";", none, 1⟩,
   ⟨TokenType.Eof, "", none, 1⟩]

/-- Witness for C4: parsing `for (;;) print 1;` yields a bare `While` with
the defaulted `true` condition — a spec-desugared tree — and the parse
result has no `ForStmt` node. -/
theorem for_desugars_exactly_witness :
    (∃ ini cond incr body,
      Stmt.WhileStmt (Expr.Literal .True)
        (Stmt.Print (Expr.Literal (.Number 1)))
        = desugarForSpec ini cond incr body) ∧
    stmtHasFor (Stmt.WhileStmt (Expr.Literal .True)
      (Stmt.Print (Expr.Literal (.Number 1)))) = false :=
  ⟨for_desugars_exactly.2.1 forSemiTokens 20 1 _ 8 rfl,
   for_desugars_exactly.2.2 forSemiTokens 20
     [Stmt.WhileStmt (Expr.Literal .True)
       (Stmt.Print (Expr.Literal (.Number 1)))] rfl _ (by simp)⟩

/-! ### Scanning ASCII input (C5)

On ASCII input the byte length equals the character count, so the scanner's
byte/char cursor mix is harmless: every loop stays in bounds, never panics,
and the scan completes with exactly one appended end-of-input token. -/

/-- All characters are ASCII. -/
def asciiOnly (src : List Char) : Bool :=
  src.all fun c => c.toNat < 128

theorem ascii_utf8Size {c : Char} (h : c.toNat < 128) : c.utf8Size = 1 := by
  have hv : c.val ≤ (0x7F : UInt32) := by
    change c.val.val ≤ _
    exact Fin.mk_le_mk.mpr (Nat.le_of_lt_succ h)
  simp [Char.utf8Size, hv]

theorem byteLen_ascii {src : List Char} (h : asciiOnly src = true) :
    byteLen src = src.length := by
  induction src with
  | nil => rfl
  | cons c cs ih =>
      simp only [asciiOnly, List.all_cons, Bool.and_eq_true,
        decide_eq_true_eq] at h
      have ihv := ih h.2
      simp only [byteLen, List.map_cons, List.sum_cons, List.length_cons] at ihv ⊢
      rw [ascii_utf8Size h.1]
      omega

theorem get?_of_lt {src : List Char} {cur : Nat} (h : cur < src.length) :
    ∃ c, src.get? cur = some c ∧ src[cur]? = some c ∧
      src.getD cur ' ' = c := by
  have h1 : src.get? cur = some (src.get ⟨cur, h⟩) := List.get?_eq_get h
  refine ⟨src.get ⟨cur, h⟩, h1, ?_, ?_⟩
  · rw [← List.get?_eq_getElem?]
    exact h1
  · have h2 : src.getD cur ' ' = (src.get? cur).getD ' ' := rfl
    rw [h2, h1]
    rfl

theorem stringLoop_ok (src : List Char) :
    ∀ fuel cur line, cur ≤ src.length → src.length - cur < fuel →
      ∃ cur' line', stringLoop src src.length fuel cur line
        = .ok (cur', line') ∧ cur ≤ cur' ∧ cur' ≤ src.length := by
  intro fuel
  induction fuel with
  | zero => intro cur line hc hf; exact absurd hf (by omega)
  | succ fuel ih =>
      intro cur line hc hf
      by_cases hend : src.length ≤ cur
      · exact ⟨cur, line, by simp [stringLoop, hend], le_refl _, hc⟩
      · obtain ⟨c, hget, hgetE, _⟩ := get?_of_lt (show cur < src.length by omega)
        by_cases hq : c = '"'
        · exact ⟨cur, line, by simp [stringLoop, hend, hget, hgetE, hq], le_refl _, hc⟩
        · obtain ⟨cur', line', hl, h1, h2⟩ :=
            ih (cur + 1) (if c = '\n' then line + 1 else line)
              (by omega) (by omega)
          exact ⟨cur', line', by simp [stringLoop, hend, hget, hgetE, hq, hl],
            by omega, h2⟩

theorem stringLoop_no_quote (src : List Char) :
    ∀ fuel cur line, cur ≤ src.length → src.length - cur < fuel →
      (∀ j, cur ≤ j → j < src.length → src.getD j ' ' ≠ '"') →
      ∃ line', stringLoop src src.length fuel cur line
        = .ok (src.length, line') := by
  intro fuel
  induction fuel with
  | zero => intro cur line hc hf; exact absurd hf (by omega)
  | succ fuel ih =>
      intro cur line hc hf hnq
      by_cases hend : src.length ≤ cur
      · have : cur = src.length := by omega
        subst this
        exact ⟨line, by simp [stringLoop, hend]⟩
      · obtain ⟨c, hget, hgetE, hgd⟩ := get?_of_lt (show cur < src.length by omega)
        have hq : c ≠ '"' := hgd ▸ hnq cur (le_refl _) (by omega)
        obtain ⟨line', hl⟩ :=
          ih (cur + 1) (if c = '\n' then line + 1 else line) (by omega)
            (by omega) (fun j h1 h2 => hnq j (by omega) h2)
        exact ⟨line', by simp [stringLoop, hend, hget, hgetE, hq, hl]⟩

theorem spanLoop_ok (src : List Char) (p : Char → Bool) :
    ∀ fuel cur, cur ≤ src.length → src.length - cur < fuel →
      ∃ cur', spanLoop src src.length p fuel cur = .ok cur' ∧
        cur ≤ cur' ∧ cur' ≤ src.length := by
  intro fuel
  induction fuel with
  | zero => intro cur hc hf; exact absurd hf (by omega)
  | succ fuel ih =>
      intro cur hc hf
      by_cases hend : src.length ≤ cur
      · exact ⟨cur, by simp [spanLoop, hend], le_refl _, hc⟩
      · obtain ⟨c, hget, hgetE, _⟩ := get?_of_lt (show cur < src.length by omega)
        by_cases hp : p c
        · obtain ⟨cur', hl, h1, h2⟩ := ih (cur + 1) (by omega) (by omega)
          exact ⟨cur', by simp [spanLoop, hend, hget, hgetE, hp, hl], by omega, h2⟩
        · exact ⟨cur, by simp [spanLoop, hend, hget, hgetE, hp], le_refl _, hc⟩

theorem commentLoop_ok (src : List Char) :
    ∀ fuel cur, cur ≤ src.length → src.length - cur < fuel →
      ∃ cur', commentLoop src src.length fuel cur = .ok cur' ∧
        cur ≤ cur' ∧ cur' ≤ src.length := by
  intro fuel
  induction fuel with
  | zero => intro cur hc hf; exact absurd hf (by omega)
  | succ fuel ih =>
      intro cur hc hf
      by_cases hend : src.length ≤ cur
      · exact ⟨cur, by simp [commentLoop, hend], le_refl _, hc⟩
      · obtain ⟨c, hget, hgetE, _⟩ := get?_of_lt (show cur < src.length by omega)
        by_cases hn : c = '\n'
        · exact ⟨cur, by simp [commentLoop, hend, hget, hgetE, hn], le_refl _, hc⟩
        · obtain ⟨cur', hl, h1, h2⟩ := ih (cur + 1) (by omega) (by omega)
          exact ⟨cur', by simp [commentLoop, hend, hget, hgetE, hn, hl],
            by omega, h2⟩

theorem charMatch_ok (src : List Char) (cur : Nat) (ch : Char)
    (hc : cur ≤ src.length) :
    ∃ b cur', charMatch src src.length cur ch = .ok (b, cur') ∧
      cur ≤ cur' ∧ cur' ≤ src.length := by
  by_cases hend : src.length ≤ cur
  · exact ⟨false, cur, by simp [charMatch, hend], le_refl _, hc⟩
  · obtain ⟨c, hget, hgetE, _⟩ := get?_of_lt (show cur < src.length by omega)
    by_cases hq : c = ch
    · exact ⟨true, cur + 1, by simp [charMatch, hend, hget, hgetE, hq],
        by omega, by omega⟩
    · exact ⟨false, cur, by simp [charMatch, hend, hget, hgetE, hq], le_refl _, hc⟩

theorem stringFn_ok (src : List Char) (start cur line : Nat)
    (hc : cur ≤ src.length) :
    ∃ e cur' line' toks,
      stringFn src src.length start cur line = .ok (e, cur', line', toks) ∧
      cur ≤ cur' ∧ cur' ≤ src.length := by
  obtain ⟨cur₁, line₁, hl, h1, h2⟩ :=
    stringLoop_ok src (src.length - cur + 1) cur line hc (by omega)
  by_cases hend : src.length ≤ cur₁
  · exact ⟨some "Unterminated string", cur₁, line₁, [],
      by simp [stringFn, hl, hend], h1, h2⟩
  · obtain ⟨c, hget, hgetE, _⟩ := get?_of_lt (show cur₁ < src.length by omega)
    refine ⟨none, cur₁ + 1, line₁,
      [⟨TokenType.String, sliceStr src start (cur₁ + 1),
        some (.StringValue (String.mk (sliceChars src (start + 1)
          (cur₁ + 1 - 1)))), line₁⟩], ?_, by omega, by omega⟩
    simp [stringFn, hl, hend, advanceCh, hget, hgetE]

theorem peekCh_ok (src : List Char) (cur : Nat) :
    ∃ c, peekCh src src.length cur = .ok c := by
  by_cases hend : src.length ≤ cur
  · exact ⟨'\x00', by simp [peekCh, hend]⟩
  · obtain ⟨c, hget, hgetE, _⟩ := get?_of_lt (show cur < src.length by omega)
    exact ⟨c, by simp [peekCh, hend, hget, hgetE]⟩

theorem peekNextCh_ok (src : List Char) (cur : Nat) :
    ∃ c, peekNextCh src src.length cur = .ok c := by
  by_cases hend : src.length ≤ cur + 1
  · exact ⟨'\x00', by simp [peekNextCh, hend]⟩
  · obtain ⟨c, hget, hgetE, _⟩ :=
      get?_of_lt (show cur + 1 < src.length by omega)
    exact ⟨c, by simp [peekNextCh, hend, hget, hgetE]⟩

theorem numberFn_ok (src : List Char) (start cur line : Nat)
    (hc : cur ≤ src.length) :
    ∃ e cur' line' toks,
      numberFn src src.length start cur line = .ok (e, cur', line', toks) ∧
      cur ≤ cur' ∧ cur' ≤ src.length := by
  obtain ⟨cur₁, hsp, h1, h2⟩ :=
    spanLoop_ok src isDigitCh (src.length - cur + 1) cur hc (by omega)
  by_cases hend : src.length ≤ cur₁
  · have hpk : peekCh src src.length cur₁ = .ok '\x00' := by
      simp [peekCh, hend]
    have hdot : ('\x00' : Char) ≠ '.' := by decide
    rcases hp : parseF64 (sliceChars src start cur₁) with _ | q <;>
      [refine ⟨some ("Could not parse: "
          ++ String.mk (sliceChars src start cur₁)), cur₁, line, [], ?_,
          h1, h2⟩;
       refine ⟨none, cur₁, line,
          [⟨TokenType.Number, sliceStr src start cur₁,
            some (.FloatValue q), line⟩], ?_, h1, h2⟩] <;>
      simp [numberFn, hsp, hpk, hdot, hp]
  · obtain ⟨c, hget, hgetE, _⟩ := get?_of_lt (show cur₁ < src.length by omega)
    have hpk : peekCh src src.length cur₁ = .ok c := by
      simp [peekCh, hend, hget, hgetE]
    by_cases hdot : c = '.'
    · obtain ⟨c', hpn⟩ := peekNextCh_ok src cur₁
      by_cases hdig : isDigitCh c'
      · obtain ⟨cur₂, hsp2, h3, h4⟩ :=
          spanLoop_ok src isDigitCh (src.length - (cur₁ + 1) + 1) (cur₁ + 1)
            (by omega) (by omega)
        rcases hp : parseF64 (sliceChars src start cur₂) with _ | q <;>
          [refine ⟨some ("Could not parse: "
              ++ String.mk (sliceChars src start cur₂)), cur₂, line, [], ?_,
              by omega, h4⟩;
           refine ⟨none, cur₂, line,
              [⟨TokenType.Number, sliceStr src start cur₂,
                some (.FloatValue q), line⟩], ?_, by omega, h4⟩] <;>
          simp [numberFn, hsp, hpk, hdot, hpn, hdig, hsp2, hp]
      · rcases hp : parseF64 (sliceChars src start cur₁) with _ | q <;>
          [refine ⟨some ("Could not parse: "
              ++ String.mk (sliceChars src start cur₁)), cur₁, line, [], ?_,
              h1, h2⟩;
           refine ⟨none, cur₁, line,
              [⟨TokenType.Number, sliceStr src start cur₁,
                some (.FloatValue q), line⟩], ?_, h1, h2⟩] <;>
          simp [numberFn, hsp, hpk, hdot, hpn, hdig, hp]
    · rcases hp : parseF64 (sliceChars src start cur₁) with _ | q <;>
        [refine ⟨some ("Could not parse: "
            ++ String.mk (sliceChars src start cur₁)), cur₁, line, [], ?_,
            h1, h2⟩;
         refine ⟨none, cur₁, line,
            [⟨TokenType.Number, sliceStr src start cur₁,
              some (.FloatValue q), line⟩], ?_, h1, h2⟩] <;>
        simp [numberFn, hsp, hpk, hdot, hp]

theorem identifierFn_ok (src : List Char) (start cur line : Nat)
    (hc : cur ≤ src.length) :
    ∃ e cur' line' toks,
      identifierFn src src.length start cur line
        = .ok (e, cur', line', toks) ∧
      cur ≤ cur' ∧ cur' ≤ src.length := by
  obtain ⟨cur₁, hsp, h1, h2⟩ :=
    spanLoop_ok src isAlphaNumericCh (src.length - cur + 1) cur hc (by omega)
  rcases hk : keywordType (sliceStr src start cur₁) with _ | t <;>
    [refine ⟨none, cur₁, line,
        [⟨TokenType.Identifier, sliceStr src start cur₁, none, line⟩], ?_,
        h1, h2⟩;
     refine ⟨none, cur₁, line,
        [⟨t, sliceStr src start cur₁, none, line⟩], ?_, h1, h2⟩] <;>
    simp [identifierFn, hsp, hk]

theorem scanToken_ok (src : List Char) (cur line : Nat)
    (h : cur < src.length) :
    ∃ e cur' line' toks,
      scanToken src src.length cur line = .ok (e, cur', line', toks) ∧
      cur < cur' ∧ cur' ≤ src.length := by
  obtain ⟨c, hget, hgetE, _⟩ := get?_of_lt h
  have hadv : advanceCh src cur = .ok (c, cur + 1) := by
    simp [advanceCh, hget, hgetE]
  simp only [scanToken, hadv]
  split <;>
    first
    | exact ⟨none, cur + 1, line, _, rfl, by omega, by omega⟩
    | exact ⟨none, cur + 1, line + 1, _, rfl, by omega, by omega⟩
    | (obtain ⟨b, cur₂, hcm, hb1, hb2⟩ :=
        charMatch_ok src (cur + 1) '=' (by omega)
       simp only [hcm]
       exact ⟨none, cur₂, line, _, rfl, by omega, by omega⟩)
    | (obtain ⟨b, cur₂, hcm, hb1, hb2⟩ :=
        charMatch_ok src (cur + 1) '/' (by omega)
       simp only [hcm]
       cases b with
       | false => exact ⟨none, cur₂, line, _, rfl, by omega, by omega⟩
       | true =>
           obtain ⟨cur₃, hcl, hc1, hc2⟩ :=
             commentLoop_ok src (src.length - cur₂ + 1) cur₂ hb2 (by omega)
           simp only [hcl]
           exact ⟨none, cur₃, line, _, rfl, by omega, by omega⟩)
    | (obtain ⟨e, cur', line', toks, hs, hb1, hb2⟩ :=
        stringFn_ok src cur (cur + 1) line (by omega)
       simp only [hs]
       exact ⟨e, cur', line', toks, rfl, by omega, hb2⟩)
    | (by_cases hd : isDigitCh c = true
       · obtain ⟨e, cur', line', toks, hs, hb1, hb2⟩ :=
           numberFn_ok src cur (cur + 1) line (by omega)
         rw [if_pos hd, hs]
         exact ⟨e, cur', line', toks, rfl, by omega, hb2⟩
       · by_cases ha : isAlphaCh c = true
         · obtain ⟨e, cur', line', toks, hs, hb1, hb2⟩ :=
             identifierFn_ok src cur (cur + 1) line (by omega)
           rw [if_neg hd, if_pos ha, hs]
           exact ⟨e, cur', line', toks, rfl, by omega, hb2⟩
         · rw [if_neg hd, if_neg ha]
           exact ⟨_, cur + 1, line, [], rfl, by omega, by omega⟩)

theorem scanLoop_ok (src : List Char) :
    ∀ fuel cur line errs toks, cur ≤ src.length →
      src.length - cur < fuel →
      ∃ errs' toks' line',
        scanLoop src src.length fuel cur line errs toks
          = .ok (errs ++ errs', toks ++ toks', line') := by
  intro fuel
  induction fuel with
  | zero => intro cur line errs toks hc hf; exact absurd hf (by omega)
  | succ fuel ih =>
      intro cur line errs toks hc hf
      by_cases hend : src.length ≤ cur
      · exact ⟨[], [], line, by simp [scanLoop, hend]⟩
      · obtain ⟨e, cur', line', tks, hst, h1, h2⟩ :=
          scanToken_ok src cur line (by omega)
        obtain ⟨errs₂, toks₂, line₂, hrec⟩ :=
          ih cur' line' (errs ++ e.toList) (toks ++ tks) h2 (by omega)
        exact ⟨e.toList ++ errs₂, tks ++ toks₂, line₂,
          by simp [scanLoop, hend, hst, hrec]⟩

theorem joinLn_acc_leading :
    ∀ (l : List String) (acc : String),
      acc.data <+: (List.foldl (fun a m => a ++ m ++ "\n") acc l).data := by
  intro l
  induction l with
  | nil => intro acc; exact List.prefix_refl _
  | cons x xs ih =>
      intro acc
      refine List.IsPrefix.trans ?_ (ih (acc ++ x ++ "\n"))
      simp [String.data_append]

theorem mem_joinLn_infix {m : String} {errs : List String}
    (h : m ∈ errs) : m.data <:+: (joinLn errs).data := by
  suffices hgen : ∀ (l : List String) (acc : String), m ∈ l →
      m.data <:+: (List.foldl (fun a m => a ++ m ++ "\n") acc l).data by
    exact hgen errs "" h
  intro l
  induction l with
  | nil => intro acc hm; cases hm
  | cons x xs ih =>
      intro acc hm
      rcases List.mem_cons.mp hm with hm | hm
      · subst hm
        have hpre := (joinLn_acc_leading xs (acc ++ m ++ "\n")).isInfix
        refine List.IsInfix.trans ?_ hpre
        refine ⟨acc.data, "\n".data, ?_⟩
        simp [String.data_append]
      · exact ih (acc ++ x ++ "\n") hm

/-- C5 (amended): on ASCII input, scanning never panics — the scan loop
returns its accumulated errors and tokens, `scan_tokens` appends exactly one
end-of-input token (so the token sequence always ends with it) and reports
the combined errors when any were collected, the report containing each
collected message; and whenever the scanner's per-token step reaches a
string opening quote with no closing quote before end of input, it reports
exactly the constant lexical error `"Unterminated string"` (which carries no
line number) and consumes to end of input. -/
theorem unterminated_string_ascii (src : List Char)
    (hA : asciiOnly src = true) :
    (∃ (errs : List String) (toks : List Token) (line : Nat),
      scanLoop src (byteLen src) (byteLen src + 1) 0 1 [] []
        = .ok (errs, toks, line) ∧
      scan_tokens src
        = .ok ((if errs.length > 0 then Except.error (joinLn errs)
            else Except.ok ()),
          toks ++ [⟨TokenType.Eof, "", none, line⟩]) ∧
      (toks ++ [(⟨TokenType.Eof, "", none, line⟩ : Token)]).getLast?
        = some (⟨TokenType.Eof, "", none, line⟩ : Token) ∧
      ("Unterminated string" ∈ errs →
        "Unterminated string".data <:+: (joinLn errs).data)) ∧
    (∀ cur line, cur < src.length → src.getD cur ' ' = '"' →
      (∀ j, cur < j → j < src.length → src.getD j ' ' ≠ '"') →
      ∃ line', scanToken src (byteLen src) cur line
        = .ok (some "Unterminated string", src.length, line', [])) := by
  have hb : byteLen src = src.length := byteLen_ascii hA
  constructor
  · obtain ⟨errs, toks, line, hloop⟩ :=
      scanLoop_ok src (src.length + 1) 0 1 [] [] (by omega) (by omega)
    rw [hb]
    simp only [List.nil_append] at hloop
    refine ⟨errs, toks, line, hloop, ?_, List.getLast?_concat _,
      fun hm => mem_joinLn_infix hm⟩
    simp only [scan_tokens, hb, hloop]
    split <;> rfl
  · intro cur line hcur hq hnq
    obtain ⟨c, hget, hgetE, hgd⟩ := get?_of_lt hcur
    have hc : c = '"' := by rw [← hgd, hq]
    subst hc
    have hadv : advanceCh src cur = .ok ('"', cur + 1) := by
      simp [advanceCh, hget, hgetE]
    obtain ⟨line', hsl⟩ :=
      stringLoop_no_quote src (src.length - (cur + 1) + 1) (cur + 1) line
        (by omega) (by omega) (fun j h1 h2 => hnq j (by omega) h2)
    refine ⟨line', ?_⟩
    rw [hb]
    simp only [scanToken, hadv]
    simp [stringFn, hsl]

/-- Witness for C5 (amended): scanning `"ABC` — an opening quote never
closed — the scan step at the quote reports exactly
`"Unterminated string"` and consumes the whole input. -/
theorem unterminated_string_ascii_witness :
    asciiOnly "\"ABC".data = true ∧
    ∃ line', scanToken "\"ABC".data (byteLen "\"ABC".data) 0 1
      = .ok (some "Unterminated string", ("\"ABC".data).length, line', []) := by
  have aux : ∀ j, j < 4 → 0 < j → "\"ABC".data.getD j ' ' ≠ '"' := by decide
  exact ⟨by decide,
    (unterminated_string_ascii "\"ABC".data (by decide)).2 0 1 (by decide)
      (by decide) (fun j h1 h2 => aux j (by simpa using h2) h1)⟩

end Interp
